import Mathlib

/-!
Verification development for the wryte structured-logging library
(src/wryte.py).  The Python code is shallowly embedded: Python dicts with
string keys become insertion-ordered association structures, Python values
that can appear in a log record become the inductive type WJson, the
standard-library json module (json.loads / json.dumps with the default
separators and ensure_ascii=True) is embedded as an executable serializer
and parser over the float-free fragment of JSON (null, booleans, integers,
strings, arrays, objects; floats, NaN and Infinity are outside the modelled
fragment), and methods that can raise return Option / Except, with none or
error marking the raise.

Python string methods used by the code (upper, lower) are modelled on the
ASCII fragment, which covers every string the program feeds them.  The
types are a mutual inductive family (a value, a list of values, a list of
members) so that every operation is structurally recursive and evaluates
inside the kernel.
-/

namespace WryteSpec

mutual

/-- Python values that can appear in a log record: the JSON-serializable
fragment the program manipulates (None, bool, int, str, list, dict with
string keys).  Floats are outside the modelled fragment. -/
inductive WJson where
  | null : WJson
  | bool (b : Bool) : WJson
  | num (n : Int) : WJson
  | str (s : String) : WJson
  | arr (elems : WArr) : WJson
  | obj (fields : WObj) : WJson

/-- A Python list of record values. -/
inductive WArr where
  | nil : WArr
  | cons (v : WJson) (rest : WArr) : WArr

/-- A Python dict with string keys, as an insertion-ordered sequence of
key-value pairs.  Dicts built by the program never carry duplicate keys;
the operations below implement Python semantics on this representation. -/
inductive WObj where
  | nil : WObj
  | cons (k : String) (v : WJson) (rest : WObj) : WObj

end

deriving instance DecidableEq for WJson

deriving instance DecidableEq for WArr

deriving instance DecidableEq for WObj

/-- Whether a value is a Python dict (a mapping). -/
def WJson.isObj : WJson → Bool
  | .obj _ => true
  | _ => false

/-- The keys of a dict, in insertion order. -/
def WObj.keys : WObj → List String
  | .nil => []
  | .cons k _ rest => k :: rest.keys

/-- The length of a dict. -/
def WObj.length : WObj → Nat
  | .nil => 0
  | .cons _ _ rest => rest.length + 1

/-- Python d.get(k): the value at a key, or none instead of a KeyError. -/
def dictGet (d : WObj) (k : String) : Option WJson :=
  match d with
  | .nil => none
  | .cons k' v rest => if k' = k then some v else dictGet rest k

/-- Python d[k] = v: replace the value in place if the key exists (keeping
insertion order), else append the new pair at the end. -/
def dictSet (d : WObj) (k : String) (v : WJson) : WObj :=
  match d with
  | .nil => .cons k v .nil
  | .cons k' v' rest =>
      if k' = k then .cons k v rest else .cons k' v' (dictSet rest k v)

/-- Python d.update(part) for a dict argument: assign each pair of part into
d in part's iteration order. -/
def dictUpdate (d : WObj) (part : WObj) : WObj :=
  match part with
  | .nil => d
  | .cons k v rest => dictUpdate (dictSet d k v) rest

/-- Python d.pop(k) with no default: the value and the dict without the key,
or none (modelling the KeyError) when the key is absent. -/
def dictPop (d : WObj) (k : String) : Option (WJson × WObj) :=
  match d with
  | .nil => none
  | .cons k' v rest =>
      if k' = k then some (v, rest)
      else (dictPop rest k).map (fun p => (p.1, .cons k' v p.2))

/-- The value of the last pair of d carrying key k, if any.  On dicts
(duplicate-free) this agrees with dictGet; it states what a sequence of
assignments from d leaves behind. -/
def lastVal (d : WObj) (k : String) : Option WJson :=
  match d with
  | .nil => none
  | .cons k' v rest =>
      match lastVal rest k with
      | some r => some r
      | none => if k' = k then some v else none

/-- Option fallback: the first operand if present, else the second. -/
def optOr (a b : Option WJson) : Option WJson :=
  match a with
  | some v => some v
  | none => b

/-! ## The embedded json module: dumps

Characters and digits first; Python int.__repr__ is minus sign plus decimal
digits, and json.dumps with ensure_ascii=True (the default wryte relies on)
escapes the quote, the backslash and every character outside U+0020..U+007E,
with short escapes for the usual control characters and a 4-hex-digit
lowercase form otherwise, split into a surrogate pair above U+FFFF. -/

/-- ASCII decimal digit test, as in the json number grammar. -/
def isDigit (c : Char) : Bool := '0' ≤ c && c ≤ '9'

/-- The character of one decimal digit. -/
def digitChar (d : Nat) : Char := Char.ofNat (48 + d % 10)

/-- Decimal digit characters of a natural number, most significant first,
with a fuel bound so the recursion is structural; any fuel above the number
itself is in surplus, since dividing by ten reduces a number of at least ten
by more than one. -/
def natDigitsF : Nat → Nat → List Char
  | 0, _ => []
  | fuel + 1, n =>
      if n < 10 then [digitChar n]
      else natDigitsF fuel (n / 10) ++ [digitChar (n % 10)]

/-- Decimal digit characters of a natural number, most significant first. -/
def natDigits (n : Nat) : List Char := natDigitsF (n + 1) n

/-- Python repr of an int: an optional minus sign and the decimal digits. -/
def intRepr (n : Int) : List Char :=
  if n < 0 then '-' :: natDigits n.natAbs else natDigits n.natAbs

/-- The lowercase hex digit character of one hex digit value. -/
def hexChar (d : Nat) : Char :=
  if d % 16 < 10 then Char.ofNat (48 + d % 16) else Char.ofNat (87 + d % 16)

/-- The four lowercase hex digits of a code unit, as printed by the %04x
format the json encoder uses in its backslash-u escapes. -/
def hex4Chars (n : Nat) : List Char :=
  [hexChar (n / 4096), hexChar (n / 256), hexChar (n / 16), hexChar n]

/-- One character as json.dumps with ensure_ascii=True emits it: literal
printable ASCII, two-character escapes for the quote, the backslash and the
common control characters, a backslash-u escape otherwise, doubled into a
surrogate pair above U+FFFF. -/
def escAscii (c : Char) : List Char :=
  if c = '"' then ['\\', '"']
  else if c = '\\' then ['\\', '\\']
  else if 0x20 ≤ c.toNat ∧ c.toNat ≤ 0x7E then [c]
  else if c.toNat = 8 then ['\\', 'b']
  else if c.toNat = 12 then ['\\', 'f']
  else if c = '\n' then ['\\', 'n']
  else if c = '\r' then ['\\', 'r']
  else if c = '\t' then ['\\', 't']
  else if c.toNat < 0x10000 then '\\' :: 'u' :: hex4Chars c.toNat
  else
    ('\\' :: 'u' :: hex4Chars (0xD800 + (c.toNat - 0x10000) / 0x400)) ++
      ('\\' :: 'u' :: hex4Chars (0xDC00 + (c.toNat - 0x10000) % 0x400))

/-- A whole string as the encoder emits it, quotes included. -/
def encodeString (s : List Char) : List Char :=
  '"' :: (s.flatMap escAscii ++ ['"'])

mutual

/-- Compact json.dumps (indent=None), with the default item separator of a
comma plus one space and key separator of a colon plus one space. -/
def dumpsVal : WJson → List Char
  | .num n => intRepr n
  | .str s => encodeString s.data
  | .bool false => ['f', 'a', 'l', 's', 'e']
  | .bool true => ['t', 'r', 'u', 'e']
  | .null => ['n', 'u', 'l', 'l']
  | .arr .nil => ['[', ']']
  | .arr (.cons v vs) => '[' :: (dumpsVal v ++ (dumpsArrTail vs ++ [']']))
  | .obj .nil => ['{', '}']
  | .obj (.cons k v kvs) =>
      '{' :: (encodeString k.data ++ (':' :: ' ' :: (dumpsVal v
        ++ (dumpsObjTail kvs ++ ['}']))))

/-- The remaining array items, each preceded by the item separator. -/
def dumpsArrTail : WArr → List Char
  | .nil => []
  | .cons v vs => ',' :: ' ' :: (dumpsVal v ++ dumpsArrTail vs)

/-- The remaining object members, each preceded by the item separator. -/
def dumpsObjTail : WObj → List Char
  | .nil => []
  | .cons k v kvs =>
      ',' :: ' ' :: (encodeString k.data ++ (':' :: ' ' :: (dumpsVal v ++ dumpsObjTail kvs)))

end

/-- The string json.dumps(v) returns in compact mode. -/
def dumps (v : WJson) : String := String.mk (dumpsVal v)

mutual

/-- Indented json.dumps(v, indent=4) at a given nesting depth: every item on
its own line, item separator a bare comma before each newline, key separator
a colon plus space. -/
def dumpsIndVal (depth : Nat) : WJson → List Char
  | .arr .nil => ['[', ']']
  | .arr (.cons v vs) =>
      '[' :: ('\n' :: List.replicate (4 * (depth + 1)) ' '
        ++ (dumpsIndVal (depth + 1) v ++ (dumpsIndArrTail (depth + 1) vs
          ++ ('\n' :: List.replicate (4 * depth) ' ' ++ [']']))))
  | .obj .nil => ['{', '}']
  | .obj (.cons k v kvs) =>
      '{' :: ('\n' :: List.replicate (4 * (depth + 1)) ' '
        ++ (encodeString k.data ++ (':' :: ' ' :: (dumpsIndVal (depth + 1) v
          ++ (dumpsIndObjTail (depth + 1) kvs
            ++ ('\n' :: List.replicate (4 * depth) ' ' ++ ['}']))))))
  | .null => dumpsVal .null
  | .bool b => dumpsVal (.bool b)
  | .num n => dumpsVal (.num n)
  | .str s => dumpsVal (.str s)

/-- Remaining indented array items. -/
def dumpsIndArrTail (depth : Nat) : WArr → List Char
  | .nil => []
  | .cons v vs =>
      ',' :: '\n' :: (List.replicate (4 * depth) ' '
        ++ (dumpsIndVal depth v ++ dumpsIndArrTail depth vs))

/-- Remaining indented object members. -/
def dumpsIndObjTail (depth : Nat) : WObj → List Char
  | .nil => []
  | .cons k v kvs =>
      ',' :: '\n' :: (List.replicate (4 * depth) ' '
        ++ (encodeString k.data ++ (':' :: ' ' :: (dumpsIndVal depth v
          ++ dumpsIndObjTail depth kvs))))

end

/-- The string json.dumps(v, indent=4) returns. -/
def dumpsIndent (v : WJson) : String := String.mk (dumpsIndVal 0 v)

/-! ## The embedded json module: loads

The scanner mirrors the pure-Python json scanner on the float-free fragment:
strings with the eight backslash escapes and backslash-u code units
(surrogate pairs recombined; a lone surrogate, which Python would keep as an
unpaired code unit, has no Char and falls outside the fragment), integers by
the regex alternation of a bare zero or a nonzero leading digit, with a
fractional part or exponent — a float in Python — outside the fragment, and
the NaN / Infinity extensions also outside the fragment.  Failure is none
where Python raises JSONDecodeError. -/

/-- The json whitespace characters (space, tab, newline, carriage return). -/
def jsonWs (c : Char) : Bool := c = ' ' || c = '\t' || c = '\n' || c = '\r'

/-- Drop leading json whitespace. -/
def skipWs : List Char → List Char
  | [] => []
  | c :: rest => if jsonWs c then skipWs rest else c :: rest

/-- The value of one hex digit character, either case, as int(c, 16) accepts
it. -/
def hexVal (c : Char) : Option Nat :=
  if 48 ≤ c.toNat ∧ c.toNat ≤ 57 then some (c.toNat - 48)
  else if 97 ≤ c.toNat ∧ c.toNat ≤ 102 then some (c.toNat - 87)
  else if 65 ≤ c.toNat ∧ c.toNat ≤ 70 then some (c.toNat - 55)
  else none

/-- The value of four hex digit characters. -/
def hexVal4 (a b c d : Char) : Option Nat := do
  let va ← hexVal a
  let vb ← hexVal b
  let vc ← hexVal c
  let vd ← hexVal d
  some (va * 4096 + vb * 256 + vc * 16 + vd)

/-- The character a two-character backslash escape denotes. -/
def backslashChar : Char → Option Char
  | 'n' => some '\n'
  | 'b' => some (Char.ofNat 8)
  | 'r' => some '\r'
  | 'f' => some (Char.ofNat 12)
  | 't' => some '\t'
  | '/' => some '/'
  | '"' => some '"'
  | '\\' => some '\\'
  | _ => none

/-- Decode one backslash-u escape given its four hex digits: on a high
surrogate the input must continue with a backslash-u low surrogate and the
pair recombines into one character (a lone surrogate, which Python would
keep as an unpaired code unit, has no Char and falls outside the fragment);
any other code unit is the character itself. -/
def unescapeU (h1 h2 h3 h4 : Char) (rest3 : List Char) : Option (Char × List Char) :=
  match hexVal4 h1 h2 h3 h4 with
  | none => none
  | some n =>
      if 0xD800 ≤ n ∧ n < 0xDC00 then
        match rest3 with
        | b1 :: b2 :: g1 :: g2 :: g3 :: g4 :: rest4 =>
            if b1 = '\\' ∧ b2 = 'u' then
              match hexVal4 g1 g2 g3 g4 with
              | none => none
              | some m =>
                  if 0xDC00 ≤ m ∧ m < 0xE000 then
                    some (Char.ofNat (0x10000 + (n - 0xD800) * 0x400 + (m - 0xDC00)), rest4)
                  else none
            else none
        | _ => none
      else if 0xDC00 ≤ n ∧ n < 0xE000 then none
      else some (Char.ofNat n, rest3)

/-- Decode the escape that follows a backslash: a backslash-u code unit via
unescapeU, or one of the eight short escapes. -/
def unescapeStep : List Char → Option (Char × List Char)
  | [] => none
  | e :: rest2 =>
      if e = 'u' then
        match rest2 with
        | h1 :: h2 :: h3 :: h4 :: rest3 => unescapeU h1 h2 h3 h4 rest3
        | _ => none
      else (backslashChar e).map (fun ch => (ch, rest2))

/-- Scan a string body after its opening quote, as py_scanstring in strict
mode: literal characters up to the closing quote, control characters
rejected, backslash escapes decoded.  The fuel makes the recursion
structural; every step consumes at least one input character, so any fuel
above the input length is in surplus. -/
def scanstring : Nat → List Char → Option (List Char × List Char)
  | 0, _ => none
  | _ + 1, [] => none
  | fuel + 1, c :: rest =>
      if c = '"' then some ([], rest)
      else if c = '\\' then
        match unescapeStep rest with
        | none => none
        | some (ch, rest2) => (scanstring fuel rest2).map (fun p => (ch :: p.1, p.2))
      else if c.toNat < 0x20 then none
      else (scanstring fuel rest).map (fun p => (c :: p.1, p.2))

/-- Longest leading run of decimal digits, and the remainder. -/
def spanDigits : List Char → List Char × List Char
  | [] => ([], [])
  | c :: rest =>
      if isDigit c then
        let p := spanDigits rest
        (c :: p.1, p.2)
      else ([], c :: rest)

/-- The natural number a digit run denotes. -/
def digitsVal (ds : List Char) : Nat :=
  ds.foldl (fun acc c => acc * 10 + (c.toNat - 48)) 0

/-- The unsigned integer part of the json number regex: a bare zero, or a
nonzero digit followed by any digits (the zero alternative consumes nothing
after it, exactly as the regex alternation does). -/
def intPart : List Char → Option (Nat × List Char)
  | [] => none
  | c :: rest =>
      if c = '0' then some (0, rest)
      else if isDigit c then
        let p := spanDigits rest
        some (digitsVal (c :: p.1), p.2)
      else none

/-- The signed integer part: an optional minus sign and the integer part. -/
def scanInt : List Char → Option (Int × List Char)
  | [] => none
  | c :: rest =>
      if c = '-' then (intPart rest).map (fun p => (-(p.1 : Int), p.2))
      else (intPart (c :: rest)).map (fun p => ((p.1 : Int), p.2))

/-- Whether the regex would go on to match a fractional part here: a dot
followed by at least one digit. -/
def fracFollows : List Char → Bool
  | c1 :: c2 :: _ => c1 = '.' && isDigit c2
  | _ => false

/-- Whether an optional sign and at least one digit follow, the tail of the
regex's exponent group. -/
def signedDigits : List Char → Bool
  | [] => false
  | c :: rest =>
      if c = '+' || c = '-' then
        match rest with
        | c2 :: _ => isDigit c2
        | [] => false
      else isDigit c

/-- Whether the regex would go on to match an exponent here: an e of either
case, an optional sign, and at least one digit. -/
def expFollows : List Char → Bool
  | [] => false
  | e :: rest => (e = 'e' || e = 'E') && signedDigits rest

/-- Scan a json number.  A fractional part or exponent would make Python
build a float, which is outside the modelled fragment, so the scan is only
defined where neither follows the integer part. -/
def scanNumber (s : List Char) : Option (Int × List Char) :=
  match scanInt s with
  | none => none
  | some (n, rest) =>
      if fracFollows rest || expFollows rest then none else some (n, rest)

/-- Python dict(pairs): insert the pairs left to right, a later pair
overwriting an earlier one with the same key. -/
def buildDict (pairs : List (String × WJson)) : WObj :=
  pairs.foldl (fun acc kv => dictSet acc kv.1 kv.2) .nil

mutual

/-- One value at the current position, as the pure-Python scan_once: the
leading character dispatches to a string, an object, an array, one of the
three literal names, or the number regex.  The fuel only bounds nesting and
is in surplus whenever it exceeds the length of the remaining input. -/
def scanOnce : Nat → List Char → Option (WJson × List Char)
  | 0, _ => none
  | _ + 1, [] => none
  | fuel + 1, c :: rest =>
      if c = '"' then (scanstring fuel rest).map (fun p => (.str (String.mk p.1), p.2))
      else if c = '{' then
        match skipWs rest with
        | '}' :: rest2 => some (.obj .nil, rest2)
        | s1 => (scanMembers fuel s1).map (fun p => (.obj (buildDict p.1), p.2))
      else if c = '[' then
        match skipWs rest with
        | ']' :: rest2 => some (.arr .nil, rest2)
        | s1 => (scanItems fuel s1).map (fun p => (.arr p.1, p.2))
      else if c = 'n' then
        match rest with
        | 'u' :: 'l' :: 'l' :: rest2 => some (.null, rest2)
        | _ => none
      else if c = 't' then
        match rest with
        | 'r' :: 'u' :: 'e' :: rest2 => some (.bool true, rest2)
        | _ => none
      else if c = 'f' then
        match rest with
        | 'a' :: 'l' :: 's' :: 'e' :: rest2 => some (.bool false, rest2)
        | _ => none
      else (scanNumber (c :: rest)).map (fun p => (.num p.1, p.2))

/-- One or more comma-separated array items starting at a non-whitespace
character, as the JSONArray loop: a value, then whitespace, then a closing
bracket, or a comma, whitespace and the next item. -/
def scanItems : Nat → List Char → Option (WArr × List Char)
  | 0, _ => none
  | fuel + 1, s =>
      match scanOnce fuel s with
      | none => none
      | some (v, rest) =>
          match skipWs rest with
          | ']' :: rest2 => some (.cons v .nil, rest2)
          | ',' :: rest2 => (scanItems fuel (skipWs rest2)).map (fun p => (.cons v p.1, p.2))
          | _ => none

/-- One or more members starting at a key's opening quote, as the JSONObject
loop: a string key, whitespace, a colon, whitespace, a value, whitespace,
then a closing brace, or a comma, whitespace and the next member. -/
def scanMembers : Nat → List Char → Option (List (String × WJson) × List Char)
  | 0, _ => none
  | fuel + 1, s =>
      match s with
      | '"' :: rest =>
          match scanstring fuel rest with
          | none => none
          | some (k, rest1) =>
              match skipWs rest1 with
              | ':' :: rest2 =>
                  match scanOnce fuel (skipWs rest2) with
                  | none => none
                  | some (v, rest3) =>
                      match skipWs rest3 with
                      | '}' :: rest4 => some ([(String.mk k, v)], rest4)
                      | ',' :: rest4 =>
                          (scanMembers fuel (skipWs rest4)).map (fun p =>
                            ((String.mk k, v) :: p.1, p.2))
                      | _ => none
              | _ => none
      | _ => none

end

/-- json.loads: skip leading whitespace, scan one value, and require only
whitespace to remain; none models JSONDecodeError. -/
def loads (s : String) : Option WJson :=
  match scanOnce ((skipWs s.data).length + 1) (skipWs s.data) with
  | some (v, rest) => if skipWs rest = [] then some v else none
  | none => none

/-! ## Python built-ins the program uses: upper, lower, str and repr -/

/-- Python str.upper on the ASCII fragment. -/
def pyUpper (s : String) : String := String.mk (s.data.map Char.toUpper)

/-- Python str.lower on the ASCII fragment. -/
def pyLower (s : String) : String := String.mk (s.data.map Char.toLower)

/-- One character of a Python string repr, given the chosen quote character:
backslashes, the quote and the common control characters get two-character
escapes, the other control characters and DEL a backslash-x hex escape;
non-printable characters above ASCII, which Python would also escape, are
outside the modelled fragment and kept literal. -/
def pyReprChar (q : Char) (c : Char) : List Char :=
  if c = '\\' then ['\\', '\\']
  else if c = q then ['\\', q]
  else if c = '\n' then ['\\', 'n']
  else if c = '\r' then ['\\', 'r']
  else if c = '\t' then ['\\', 't']
  else if c.toNat < 0x20 ∨ c.toNat = 0x7F then
    ['\\', 'x', hexChar (c.toNat / 16), hexChar (c.toNat % 16)]
  else [c]

/-- Python repr of a string: single-quoted, except double-quoted when the
string holds a single quote but no double quote. -/
def pyReprStr (s : String) : List Char :=
  let q := if s.data.contains '\'' && !(s.data.contains '"') then '"' else '\''
  q :: (s.data.flatMap (pyReprChar q) ++ [q])

mutual

/-- Python repr of a record value (None, True, False, int digits, quoted
string, bracketed list, braced dict of repr pairs). -/
def pyRepr : WJson → List Char
  | .null => ['N', 'o', 'n', 'e']
  | .bool true => ['T', 'r', 'u', 'e']
  | .bool false => ['F', 'a', 'l', 's', 'e']
  | .num n => intRepr n
  | .str s => pyReprStr s
  | .arr .nil => ['[', ']']
  | .arr (.cons v vs) => '[' :: (pyRepr v ++ (pyReprArrTail vs ++ [']']))
  | .obj .nil => ['{', '}']
  | .obj (.cons k v kvs) =>
      '{' :: (pyReprStr k ++ (':' :: ' ' :: (pyRepr v ++ (pyReprObjTail kvs ++ ['}']))))

/-- Remaining repr list items. -/
def pyReprArrTail : WArr → List Char
  | .nil => []
  | .cons v vs => ',' :: ' ' :: (pyRepr v ++ pyReprArrTail vs)

/-- Remaining repr dict members. -/
def pyReprObjTail : WObj → List Char
  | .nil => []
  | .cons k v kvs => ',' :: ' ' :: (pyReprStr k ++ (':' :: ' ' :: (pyRepr v ++ pyReprObjTail kvs)))

end

/-- Python str of a record value: a string is itself, everything else its
repr (this is what str.format applies to its arguments). -/
def pyStr : WJson → String
  | .str s => s
  | v => String.mk (pyRepr v)

/-! ## The formatters (JsonFormatter, ConsoleFormatter) -/

/-- JsonFormatter.format: json.dumps of the record dict carried in the log
record's msg, indented by four when the formatter was built pretty. -/
def JsonFormatter.format (pretty : Bool) (msg : WJson) : String :=
  if pretty then dumpsIndent msg else dumps msg

/-- The colorama Fore.CYAN ANSI sequence. -/
def ForeCYAN : String := "\x1b[36m"

/-- The colorama Fore.GREEN ANSI sequence. -/
def ForeGREEN : String := "\x1b[32m"

/-- The colorama Fore.YELLOW ANSI sequence. -/
def ForeYELLOW : String := "\x1b[33m"

/-- The colorama Fore.RED ANSI sequence. -/
def ForeRED : String := "\x1b[31m"

/-- The colorama Fore.MAGENTA ANSI sequence. -/
def ForeMAGENTA : String := "\x1b[35m"

/-- The colorama Style.BRIGHT ANSI sequence. -/
def StyleBRIGHT : String := "\x1b[1m"

/-- The colorama Style.RESET_ALL ANSI sequence. -/
def StyleRESET : String := "\x1b[0m"

/-- ConsoleFormatter._get_level_color: the color mapping over the
lower-cased severity name, none when the name is unknown. -/
def getLevelColor (level : String) : Option String :=
  let l := pyLower level
  if l = "debug" then some ForeCYAN
  else if l = "info" then some ForeGREEN
  else if l = "warning" then some ForeYELLOW
  else if l = "warn" then some ForeYELLOW
  else if l = "error" then some ForeRED
  else if l = "critical" then some (StyleBRIGHT ++ ForeRED)
  else none

/-- The per-extra-field lines the pretty console output appends, one line of
two-space indent, key, equals sign and str of the value per field, in the
dict's iteration order. -/
def extrasLines : WObj → String
  | .nil => ""
  | .cons k v rest => "\n  " ++ k ++ "=" ++ pyStr v ++ extrasLines rest

/-- The console output after the four head fields are fixed: the head line,
then pretty per-field lines, or an indented json block when any extras
remain. -/
def consoleTail (pretty : Bool) (head : String) (extras : WObj) : String :=
  if pretty then head ++ extrasLines extras
  else
    match extras with
    | .nil => head
    | ex => head ++ "\n" ++ dumpsIndent (.obj ex)

/-- The console formatting step after the six pops succeed.  With color
active the level, timestamp and name must be strings — Python would raise an
AttributeError from level.lower() or a TypeError from concatenating a color
code with a non-string otherwise — and an unknown severity name makes the
color lookup return None, which also raises a TypeError when concatenated;
all three raises are none here.  Without color every field goes through str.
-/
def formatParts (pretty color colorama : Bool)
    (name timestamp level message : WJson) (extras : WObj) : Option String :=
  if colorama && color then
    match name, timestamp, level with
    | .str nm, .str ts, .str lv =>
        match getLevelColor lv with
        | some col =>
            some (consoleTail pretty
              ((ForeGREEN ++ ts ++ StyleRESET) ++ " - " ++ (ForeMAGENTA ++ nm ++ StyleRESET)
                ++ " - " ++ (col ++ lv ++ StyleRESET) ++ " - " ++ pyStr message) extras)
        | none => none
    | _, _, _ => none
  else
    some (consoleTail pretty
      (pyStr timestamp ++ " - " ++ pyStr name ++ " - " ++ pyStr level ++ " - " ++ pyStr message)
      extras)

/-- ConsoleFormatter.format on a copy of the record dict: pop the four head
fields and the two identity fields (a missing key is a KeyError, so none),
then build the head line and the extras tail.  The colorama flag tells
whether the color library imported. -/
def ConsoleFormatter.format (pretty color colorama : Bool) (record : WObj) : Option String :=
  match dictPop record "name" with
  | none => none
  | some (name, r1) =>
      match dictPop r1 "timestamp" with
      | none => none
      | some (timestamp, r2) =>
          match dictPop r2 "level" with
          | none => none
          | some (level, r3) =>
              match dictPop r3 "message" with
              | none => none
              | some (message, r4) =>
                  match dictPop r4 "hostname" with
                  | none => none
                  | some (_, r5) =>
                      match dictPop r5 "pid" with
                      | none => none
                      | some (_, extras) =>
                          formatParts pretty color colorama name timestamp level message extras

/-! ## A small heap of record dicts

ConsoleFormatter.format first copies the record dict and then pops keys from
the copy in place.  To state that the caller's dict is untouched, the dicts
live in an explicit heap of cells addressed by allocation index; the copy is
a fresh allocation and every pop writes to the fresh cell only. -/

/-- A heap of record dicts, addressed by allocation index. -/
structure Heap where
  cells : List WObj

/-- The dict a reference points to. -/
def heapGet (h : Heap) (r : Nat) : Option WObj := h.cells.get? r

/-- Overwrite the dict a reference points to. -/
def heapSet (h : Heap) (r : Nat) (d : WObj) : Heap := ⟨h.cells.set r d⟩

/-- Allocate a fresh cell holding d, returning its reference. -/
def heapAlloc (h : Heap) (d : WObj) : Nat × Heap := (h.cells.length, ⟨h.cells ++ [d]⟩)

/-- Python record.pop(key) on the dict behind a reference: mutate the cell,
none on a KeyError or a dangling reference. -/
def heapPop (h : Heap) (r : Nat) (k : String) : Option (WJson × Heap) :=
  match heapGet h r with
  | none => none
  | some d => (dictPop d k).map (fun p => (p.1, heapSet h r p.2))

/-- ConsoleFormatter.format acting on the heap: read the caller's record
dict, copy it into a fresh cell, pop the six fields from that cell in place,
and render.  The returned heap is the memory as the method leaves it, also
on the KeyError paths. -/
def ConsoleFormatter.formatRef (pretty color colorama : Bool) (h : Heap) (ref : Nat) :
    Option String × Heap :=
  match heapGet h ref with
  | none => (none, h)
  | some d =>
      let a := heapAlloc h d
      match heapPop a.2 a.1 "name" with
      | none => (none, a.2)
      | some (name, h1) =>
          match heapPop h1 a.1 "timestamp" with
          | none => (none, h1)
          | some (timestamp, h2) =>
              match heapPop h2 a.1 "level" with
              | none => (none, h2)
              | some (level, h3) =>
                  match heapPop h3 a.1 "message" with
                  | none => (none, h3)
                  | some (message, h4) =>
                      match heapPop h4 a.1 "hostname" with
                      | none => (none, h4)
                      | some (_, h5) =>
                          match heapPop h5 a.1 "pid" with
                          | none => (none, h5)
                          | some (_, h6) =>
                              match heapGet h6 a.1 with
                              | none => (none, h6)
                              | some extras =>
                                  (formatParts pretty color colorama
                                    name timestamp level message extras, h6)

/-! ## The Wryte logger: levels, handlers, identity, enrichment -/

/-- The LEVEL_CONVERSION table, with the numeric values of the standard
logging severities. -/
def LEVEL_CONVERSION : List (String × Nat) :=
  [("debug", 10), ("info", 20), ("warning", 30), ("warn", 30), ("error", 40), ("critical", 50)]

/-- LEVEL_CONVERSION[s], as an Option. -/
def levelLookup (s : String) : Option Nat :=
  (LEVEL_CONVERSION.find? (fun p => p.1 = s)).map (fun p => p.2)

/-- The formatter object a handler carries after setFormatter. -/
inductive FmtDesc where
  | jsonFmt (pretty : Bool) : FmtDesc
  | consoleFmt (pretty : Bool) (color : Bool) : FmtDesc
deriving DecidableEq

/-- A logging handler: an identity (Python object identity, for the list
membership and removal the logging module performs), its name, and the
formatter set on it. -/
structure Handler where
  hid : Nat
  name : String
  fmt : Option FmtDesc
deriving DecidableEq

/-- The state of the underlying logging.Logger: its single shared level
(NOTSET is zero on a fresh logger) and its handler list. -/
structure LoggerState where
  level : Nat
  handlers : List Handler
deriving DecidableEq

/-- A fresh logging.Logger: level NOTSET, no handlers. -/
def freshLogger : LoggerState := ⟨0, []⟩

/-- Python x or y for an optional string: y when x is None or empty (falsy),
else x. -/
def pyOrStr (x : Option String) (y : String) : String :=
  match x with
  | some s => if s = "" then y else s
  | none => y

/-- Python x or y for an optional bool: True only when x is True, else y. -/
def pyOrBool (x : Option Bool) (y : Bool) : Bool :=
  match x with
  | some true => true
  | _ => y

/-- What Wryte.add_handler can raise: its own WryteError on a bad severity
name, or the AssertionError of the formatter assertion. -/
inductive AddErr where
  | wryteError : AddErr
  | assertionError : AddErr
deriving DecidableEq

/-- Wryte.add_handler: reject a severity name outside LEVEL_CONVERSION with
a WryteError, default the name to the fresh uuid4 string (here the autoName
argument), assert the formatter kind, build the formatter from the
instance's pretty and color settings, set it and the name on the handler,
set the logger's shared level to the requested one, append the handler
unless the same object is already attached, and return the name. -/
def add_handler (st : LoggerState) (selfPretty : Option Bool) (selfColor : Bool)
    (handler : Handler) (name : Option String) (autoName : String)
    (formatter : String) (level : String) : Except AddErr (String × LoggerState) :=
  match levelLookup (pyLower level) with
  | none => .error .wryteError
  | some lvl =>
      let hname := pyOrStr name autoName
      if formatter = "console" ∨ formatter = "json" then
        let fmtObj :=
          if formatter = "json" then FmtDesc.jsonFmt (pyOrBool selfPretty false)
          else FmtDesc.consoleFmt (pyOrBool selfPretty true) selfColor
        let handler' : Handler := { handler with name := hname, fmt := some fmtObj }
        let handlers' :=
          if st.handlers.any (fun x => x.hid = handler'.hid) then st.handlers
          else st.handlers ++ [handler']
        .ok (hname, { level := lvl, handlers := handlers' })
      else .error .assertionError

/-- Wryte.list_handlers: the names of the attached handlers. -/
def list_handlers (st : LoggerState) : List String :=
  st.handlers.map (fun h => h.name)

/-- Python list.remove on handlers (first element equal to the argument,
where handler equality is object identity). -/
def listRemoveFirst (hs : List Handler) (h : Handler) : List Handler :=
  match hs with
  | [] => []
  | x :: rest => if x.hid = h.hid then rest else x :: listRemoveFirst rest h

/-- Wryte.remove_handler's loop, exactly as Python executes it: the for
statement walks the live handler list by index, so removing the current
element shifts the remainder left under the iterator and the following
element is never visited.  The fuel makes the recursion structural; the
index grows by one per step and the list never grows, so a fuel of the
initial length runs the loop to its natural exit. -/
def removeHandlerLoop (fuel : Nat) (hs : List Handler) (name : String) (i : Nat) :
    List Handler :=
  match fuel with
  | 0 => hs
  | fuel + 1 =>
      if hlt : i < hs.length then
        let x := hs.get ⟨i, hlt⟩
        let hs' :=
          if x.name = name then
            if hs.any (fun y => y.hid = x.hid) then listRemoveFirst hs x else hs
          else hs
        removeHandlerLoop fuel hs' name (i + 1)
      else hs

/-- Wryte.remove_handler: detach every handler the loop above reaches whose
name matches. -/
def remove_handler (st : LoggerState) (name : String) : LoggerState :=
  { st with handlers := removeHandlerLoop st.handlers.length st.handlers name 0 }

/-- Wryte._get_base: the identity fields of every record.  The name is
stored as given (None included); a missing or empty hostname falls back to
the socket.gethostname() result passed in here. -/
def get_base (name : Option String) (hostname : Option String)
    (gethostname : String) (pid : Int) : WObj :=
  .cons "name" (match name with | some s => .str s | none => .null)
    (.cons "hostname"
      (.str (match hostname with
             | some h => if h = "" then gethostname else h
             | none => gethostname))
      (.cons "pid" (.num pid) .nil))

/-- A context object as the logging methods accept it: a dict or a string. -/
inductive CtxObj where
  | dict (d : WObj) : CtxObj
  | str (s : String) : CtxObj
deriving DecidableEq

/-- The first-equals split of Wryte._split_kv: pair.split with a maxsplit of
one.  The before and after parts of the first equals sign, or none when the
string has no equals sign (pair.split then yields one part and kv[1] is an
IndexError). -/
def splitFirstEq : List Char → Option (List Char × List Char)
  | [] => none
  | c :: rest =>
      if c = '=' then some ([], rest)
      else (splitFirstEq rest).map (fun p => (c :: p.1, p.2))

/-- Wryte._split_kv: the single-pair dict of a key=value string. -/
def split_kv (s : String) : Option WObj :=
  (splitFirstEq s.data).map (fun p => .cons (String.mk p.1) (.str (String.mk p.2)) .nil)

/-- The treatment Wryte._normalize_objects gives one context object: a dict
passes through, any other object is fed to json.loads, and on the exception
path a string with an equals sign splits into its single pair while anything
else becomes the _bad_object sentinel dict. -/
def normalizeOne : CtxObj → WJson
  | .dict d => .obj d
  | .str s =>
      match loads s with
      | some v => v
      | none =>
          if '=' ∈ s.data then
            match split_kv s with
            | some d => .obj d
            | none => .obj .nil
          else .obj (.cons "_bad_object" (.str s) .nil)

/-- Wryte._normalize_objects: one normalized value appended per input
object. -/
def normalize_objects (objects : List CtxObj) : List WJson :=
  objects.map normalizeOne

/-- The update loop of Wryte._enrich: fold each normalized part into the
accumulating record with dict.update.  A part that is not a dict is a
TypeError from dict.update, hence none (the fragment has no update from
pair sequences). -/
def foldUpdates (log : WObj) : List WJson → Option WObj
  | [] => some log
  | part :: rest =>
      match part with
      | .obj p => foldUpdates (dictUpdate log p) rest
      | _ => none

/-- Wryte._enrich: copy the identity base, fold the normalized context
objects into it in call order, then overwrite message, the upper-cased
level, and the timestamp (the _get_timestamp reading of the clock enters as
the timestamp argument). -/
def enrich (logBase : WObj) (message : String) (level : String) (timestamp : String)
    (objects : List CtxObj) : Option WObj :=
  match foldUpdates logBase (normalize_objects objects) with
  | none => none
  | some log =>
      some (dictUpdate log
        (.cons "message" (.str message)
          (.cons "level" (.str (pyUpper level))
            (.cons "timestamp" (.str timestamp) .nil))))

/-! ## Derived notions the theorems below speak about -/

/-- The value a key ends up with after the normalized context objects are
folded in call order: the last object that is a dict and carries the key
wins; none when no object supplies it. -/
def ctxLookup (objs : List WJson) (k : String) : Option WJson :=
  match objs with
  | [] => none
  | o :: rest =>
      match ctxLookup rest k with
      | some v => some v
      | none =>
          match o with
          | .obj d => lastVal d k
          | _ => none

/-- Whether a dict carries a key. -/
def WObj.hasKey (o : WObj) (k : String) : Bool :=
  match o with
  | .nil => false
  | .cons k' _ rest => k' = k || rest.hasKey k

mutual

/-- A value every dict of which is duplicate-free: the image of a real
Python value (dicts cannot repeat keys), and exactly what json
serializability preserves. -/
def wfVal : WJson → Bool
  | .null => true
  | .bool _ => true
  | .num _ => true
  | .str _ => true
  | .arr a => wfArr a
  | .obj o => wfObj o

/-- Well-formedness of every element of a list value. -/
def wfArr : WArr → Bool
  | .nil => true
  | .cons v rest => wfVal v && wfArr rest

/-- Well-formedness of a dict: no key repeats later, and every value is
well-formed. -/
def wfObj : WObj → Bool
  | .nil => true
  | .cons k v rest => !(rest.hasKey k) && wfVal v && wfObj rest

end

/-- Whether a record carries all six fields enrichment installs (name,
timestamp, level, message, hostname, pid); these are the keys
ConsoleFormatter.format pops. -/
def hasSixFields (r : WObj) : Bool :=
  r.hasKey "name" && r.hasKey "timestamp" && r.hasKey "level" &&
    r.hasKey "message" && r.hasKey "hostname" && r.hasKey "pid"

/-- A character list position where the json number regex must have
stopped: the end of input or one of the three delimiters that follow a
serialized value (so no digit, dot or exponent can extend the match). -/
def stopHead : List Char → Prop
  | [] => True
  | c :: _ => c = ',' ∨ c = ']' ∨ c = '}'

/-- The members of a dict as a list of pairs. -/
def WObj.toPairs : WObj → List (String × WJson)
  | .nil => []
  | .cons k v rest => (k, v) :: rest.toPairs

/-- Concatenation of two dict pair sequences. -/
def WObj.append : WObj → WObj → WObj
  | .nil, b => b
  | .cons k v rest, b => .cons k v (rest.append b)

/-- A dict without (the first occurrence of) a key: the residue of a pop,
the dict itself when the key is absent. -/
def removeKey (d : WObj) (k : String) : WObj :=
  match dictPop d k with
  | some p => p.2
  | none => d

/-- A dict without any of the listed keys, removed left to right. -/
def removeKeys (d : WObj) (ks : List String) : WObj :=
  match ks with
  | [] => d
  | k :: rest => removeKeys (removeKey d k) rest

/-- Modelled from the spec's words for the console contract (pretty, no
color): the extras are the record without name, timestamp, level, message,
hostname and pid, and the output is the head line of timestamp, name, level
and message joined by dashes, followed by one two-space-indented key=value
line per extra field.  Stated independently of ConsoleFormatter.format so
the two can be compared. -/
def specConsoleRender (r : WObj) : Option String :=
  match dictGet r "timestamp", dictGet r "name", dictGet r "level", dictGet r "message" with
  | some ts, some nm, some lv, some msg =>
      some (pyStr ts ++ " - " ++ pyStr nm ++ " - " ++ pyStr lv ++ " - " ++ pyStr msg
        ++ extrasLines (removeKeys r ["name", "timestamp", "level", "message", "hostname", "pid"]))
  | _, _, _, _ => none

/-! # Lemmas about the dict operations and the key-value split -/

/-- Single-motive structural induction for dicts (the member values are not
recursed into, so no mutual motive is needed). -/
theorem WObj.inductObj {motive : WObj → Prop} (h0 : motive .nil)
    (h1 : ∀ k v rest, motive rest → motive (.cons k v rest)) : ∀ o, motive o
  | .nil => h0
  | .cons k v rest => h1 k v rest (WObj.inductObj h0 h1 rest)

/-- Single-motive structural induction for list values. -/
theorem WArr.inductArr {motive : WArr → Prop} (h0 : motive .nil)
    (h1 : ∀ v rest, motive rest → motive (.cons v rest)) : ∀ a, motive a
  | .nil => h0
  | .cons v rest => h1 v rest (WArr.inductArr h0 h1 rest)

theorem splitFirstEq_append (a b : List Char) (ha : '=' ∉ a) :
    splitFirstEq (a ++ '=' :: b) = some (a, b) := by
  induction a with
  | nil => simp [splitFirstEq]
  | cons c t ih =>
      have hc : c ≠ '=' := fun e => ha (e ▸ List.mem_cons_self c t)
      have ht : '=' ∉ t := fun hm => ha (List.mem_cons_of_mem c hm)
      simp [splitFirstEq, hc, ih ht]

theorem splitFirstEq_of_mem (l : List Char) (h : '=' ∈ l) :
    ∃ p, splitFirstEq l = some p := by
  induction l with
  | nil => cases h
  | cons c t ih =>
      by_cases hc : c = '='
      · exact ⟨([], t), by simp [splitFirstEq, hc]⟩
      · have hmem : '=' ∈ t := by
          cases h with
          | head => exact absurd rfl hc
          | tail _ hm => exact hm
        obtain ⟨p, hp⟩ := ih hmem
        exact ⟨(c :: p.1, p.2), by simp [splitFirstEq, hc, hp]⟩

theorem dictGet_dictSet (d : WObj) (k : String) (v : WJson) (k' : String) :
    dictGet (dictSet d k v) k' = if k = k' then some v else dictGet d k' := by
  induction d using WObj.inductObj with
  | h0 => by_cases h : k = k' <;> simp [dictSet, dictGet, h]
  | h1 k0 v0 rest ih =>
      by_cases h0 : k0 = k
      · subst h0
        by_cases h : k0 = k' <;> simp [dictSet, dictGet, h]
      · by_cases h1 : k0 = k'
        · subst h1
          have hk : ¬ k = k0 := fun e => h0 e.symm
          simp [dictSet, dictGet, h0, hk]
        · simp [dictSet, dictGet, h0, h1, ih]

theorem dictGet_dictUpdate (part d : WObj) (k : String) :
    dictGet (dictUpdate d part) k = optOr (lastVal part k) (dictGet d k) := by
  induction part using WObj.inductObj generalizing d with
  | h0 => simp [dictUpdate, lastVal, optOr]
  | h1 k0 v0 rest ih =>
      show dictGet (dictUpdate (dictSet d k0 v0) rest) k = _
      rw [ih, dictGet_dictSet]
      cases hl : lastVal rest k with
      | some r => simp [optOr, lastVal, hl]
      | none => by_cases h0 : k0 = k <;> simp [optOr, lastVal, hl, h0]

theorem dictGet_foldUpdates (objs : List WJson) (log out : WObj) (k : String)
    (h : foldUpdates log objs = some out) :
    dictGet out k = optOr (ctxLookup objs k) (dictGet log k) := by
  induction objs generalizing log with
  | nil =>
      simp only [foldUpdates, Option.some.injEq] at h
      subst h
      simp [ctxLookup, optOr]
  | cons o rest ih =>
      cases o with
      | obj p =>
          simp only [foldUpdates] at h
          rw [ih (dictUpdate log p) h, dictGet_dictUpdate]
          cases hc : ctxLookup rest k with
          | some v => simp [ctxLookup, optOr, hc]
          | none => cases hp : lastVal p k <;> simp [ctxLookup, optOr, hc, hp]
      | null => simp [foldUpdates] at h
      | bool b => simp [foldUpdates] at h
      | num n => simp [foldUpdates] at h
      | str s => simp [foldUpdates] at h
      | arr a => simp [foldUpdates] at h

/-! # Claim C2 -/

/-- C2, counterexample: normalization of the string "42", which json-decodes
to the bare number 42, yields that number, not a mapping — refuting the
claim that every input item yields a mapping, on the claim's own example. -/
theorem C2_counterexample_nonmapping :
    normalize_objects [CtxObj.str "42"] = [WJson.num 42] ∧
      (WJson.num 42).isObj = false :=
  ⟨rfl, rfl⟩

/-- C2, amended: for every sequence of input items, each a mapping or a
string, normalization never raises (it is total here) and returns exactly
one value per input item — the output length equals the input length — and
the value for a mapping input, or for a string input that fails json
decoding, is itself a mapping; but a string input that json-decodes yields
the decoded value, a non-mapping when the string decodes to a JSON
non-object such as "42". -/
theorem C2_normalize_shape : ∀ objects : List CtxObj,
    (normalize_objects objects).length = objects.length ∧
    (∀ d, CtxObj.dict d ∈ objects → (normalizeOne (CtxObj.dict d)).isObj = true) ∧
    (∀ s, CtxObj.str s ∈ objects → loads s = none →
      (normalizeOne (CtxObj.str s)).isObj = true) ∧
    (∀ s v, CtxObj.str s ∈ objects → loads s = some v →
      normalizeOne (CtxObj.str s) = v) := by
  intro objects
  refine ⟨by simp [normalize_objects], fun d _ => rfl, ?_, ?_⟩
  · intro s _ hl
    simp only [normalizeOne, hl]
    by_cases hmem : '=' ∈ s.data
    · obtain ⟨p, hp⟩ := splitFirstEq_of_mem s.data hmem
      simp [hmem, split_kv, hp, WJson.isObj]
    · simp [hmem, WJson.isObj]
  · intro s v _ hl
    simp [normalizeOne, hl]

/-- C2, witness for the amended theorem at a concrete input list. -/
theorem C2_normalize_shape_witness :
    (normalize_objects
      [CtxObj.dict (.cons "k" (.num 1) .nil), CtxObj.str "a=b", CtxObj.str "42"]).length = 3 ∧
    (normalizeOne (CtxObj.str "a=b")).isObj = true ∧
    normalizeOne (CtxObj.str "42") = WJson.num 42 := by
  have h := C2_normalize_shape
    [CtxObj.dict (.cons "k" (.num 1) .nil), CtxObj.str "a=b", CtxObj.str "42"]
  exact ⟨h.1, h.2.2.1 "a=b" (by decide) (by rfl), h.2.2.2 "42" (WJson.num 42) (by decide) (by rfl)⟩

/-! # Claim C6 -/

/-- C6: a string item that is not valid json and holds an equals sign is
split on the first equals sign only, into the single-pair mapping of the
part before it and the part after it; and the claim's two concrete
instances. -/
theorem C6_split_first_equals :
    (∀ a b : String, '=' ∉ a.data → loads (a ++ "=" ++ b) = none →
      normalizeOne (.str (a ++ "=" ++ b)) = .obj (.cons a (.str b) .nil)) ∧
    normalizeOne (.str "a=b=c") = .obj (.cons "a" (.str "b=c") .nil) ∧
    normalizeOne (.str "hello") = .obj (.cons "_bad_object" (.str "hello") .nil) := by
  refine ⟨?_, rfl, rfl⟩
  intro a b ha hl
  have hdata : (a ++ "=" ++ b).data = a.data ++ '=' :: b.data := by
    simp [String.data_append]
  simp only [normalizeOne, hl]
  have hc : '=' ∈ (a ++ "=" ++ b).data := by
    rw [hdata]; simp
  rw [if_pos hc]
  simp only [split_kv, hdata, splitFirstEq_append a.data b.data ha, Option.map_some']

/-- C6, witness: the general part applied at the first equals split of the
string a=b=c. -/
theorem C6_split_first_equals_witness :
    normalizeOne (.str ("a" ++ "=" ++ "b=c")) = .obj (.cons "a" (.str "b=c") .nil) :=
  C6_split_first_equals.1 "a" "b=c" (by decide) (by rfl)

/-! # Claim C4 -/

/-- C4, counterexample: adding a handler at debug and then one at error
leaves the shared logger level at 40, the level of the later call, not the
lowest requested level 10 — adding a higher-severity handler after a
lower-severity one does raise the shared threshold. -/
theorem C4_counterexample_threshold :
    add_handler freshLogger none true ⟨1, "x", none⟩ (some "a") "u1" "json" "debug"
      = .ok ("a", ⟨10, [⟨1, "a", some (.jsonFmt false)⟩]⟩) ∧
    add_handler ⟨10, [⟨1, "a", some (.jsonFmt false)⟩]⟩ none true ⟨2, "x", none⟩
        (some "b") "u2" "json" "error"
      = .ok ("b", ⟨40, [⟨1, "a", some (.jsonFmt false)⟩, ⟨2, "b", some (.jsonFmt false)⟩]⟩) ∧
    (40 : Nat) ≠ min 10 40 :=
  ⟨rfl, rfl, by decide⟩

/-- C4, amended: after any successful add_handler call the sink-wide level
equals the level that call requested (the most recent request wins,
whatever the other active handlers asked for). -/
theorem C4_threshold_last_wins :
    ∀ st selfPretty selfColor handler name autoName formatter level nm st',
      add_handler st selfPretty selfColor handler name autoName formatter level
        = .ok (nm, st') →
      levelLookup (pyLower level) = some st'.level := by
  intro st selfPretty selfColor handler name autoName formatter level nm st' h
  cases hl : levelLookup (pyLower level) with
  | none => simp [add_handler, hl] at h
  | some lvl =>
      simp only [add_handler, hl] at h
      split at h
      · cases h
        rfl
      · exact absurd h (by simp)

/-- C4, witness for the amended theorem: the error-level call of the
counterexample sets the shared level to 40. -/
theorem C4_threshold_last_wins_witness :
    levelLookup (pyLower "error") =
      some (LoggerState.level
        ⟨40, [⟨1, "a", some (.jsonFmt false)⟩, ⟨2, "b", some (.jsonFmt false)⟩]⟩) :=
  C4_threshold_last_wins ⟨10, [⟨1, "a", some (.jsonFmt false)⟩]⟩ none true ⟨2, "x", none⟩
    (some "b") "u2" "json" "error" "b" _ rfl

/-! # Claim C5 -/

/-- C5, counterexample: adding two handlers under the same explicit name and
then calling remove_handler once removes only the first — the loop mutates
the list it iterates, skipping the element that slides into the removed
slot — so list_handlers still reports the name, refuting the claim that
both bindings are removed. -/
theorem C5_counterexample_remove_both :
    add_handler freshLogger none true ⟨1, "x", none⟩ (some "n") "u1" "json" "info"
      = .ok ("n", ⟨20, [⟨1, "n", some (.jsonFmt false)⟩]⟩) ∧
    add_handler ⟨20, [⟨1, "n", some (.jsonFmt false)⟩]⟩ none true ⟨2, "x", none⟩
        (some "n") "u2" "json" "info"
      = .ok ("n", ⟨20, [⟨1, "n", some (.jsonFmt false)⟩, ⟨2, "n", some (.jsonFmt false)⟩]⟩) ∧
    list_handlers (remove_handler
      ⟨20, [⟨1, "n", some (.jsonFmt false)⟩, ⟨2, "n", some (.jsonFmt false)⟩]⟩ "n") = ["n"] :=
  ⟨rfl, rfl, rfl⟩

/-- C5, amended: adding two distinct handler objects under the same
non-empty explicit name to a fresh logger and then calling remove_handler
once with that name removes only the first of the two; the second stays
attached and list_handlers still reports exactly that name. -/
theorem C5_remove_skips_second :
    ∀ (hid1 hid2 : Nat) (n autoName1 autoName2 : String) (f1 f2 : Option FmtDesc)
      (st1 st2 : LoggerState),
      hid1 ≠ hid2 → n ≠ "" →
      add_handler freshLogger none true ⟨hid1, "", f1⟩ (some n) autoName1 "json" "info"
        = .ok (n, st1) →
      add_handler st1 none true ⟨hid2, "", f2⟩ (some n) autoName2 "json" "info"
        = .ok (n, st2) →
      st2.handlers = [⟨hid1, n, some (.jsonFmt false)⟩, ⟨hid2, n, some (.jsonFmt false)⟩] ∧
      list_handlers (remove_handler st2 n) = [n] := by
  intro hid1 hid2 n a1 a2 f1 f2 st1 st2 hne hn h1 h2
  have hst1 : st1 = ⟨20, [⟨hid1, n, some (.jsonFmt false)⟩]⟩ := by
    simp only [add_handler, freshLogger, levelLookup, LEVEL_CONVERSION, pyLower, pyOrStr,
      List.find?, List.any_nil, if_neg hn] at h1
    simp at h1
    exact h1.symm
  subst hst1
  have hst2 : st2 = ⟨20, [⟨hid1, n, some (.jsonFmt false)⟩, ⟨hid2, n, some (.jsonFmt false)⟩]⟩ := by
    simp only [add_handler, levelLookup, LEVEL_CONVERSION, pyLower, pyOrStr,
      if_neg hn] at h2
    simp [List.any_cons, List.any_nil, hne] at h2
    exact h2.symm
  subst hst2
  refine ⟨rfl, ?_⟩
  simp [remove_handler, removeHandlerLoop, listRemoveFirst, list_handlers, List.get]

/-- C5, witness for the amended theorem at concrete handler identities. -/
theorem C5_remove_skips_second_witness :
    LoggerState.handlers ⟨20, [⟨1, "n", some (.jsonFmt false)⟩, ⟨2, "n", some (.jsonFmt false)⟩]⟩
      = [⟨1, "n", some (.jsonFmt false)⟩, ⟨2, "n", some (.jsonFmt false)⟩] ∧
    list_handlers (remove_handler
      ⟨20, [⟨1, "n", some (.jsonFmt false)⟩, ⟨2, "n", some (.jsonFmt false)⟩]⟩ "n") = ["n"] :=
  C5_remove_skips_second 1 2 "n" "u1" "u2" none none
    ⟨20, [⟨1, "n", some (.jsonFmt false)⟩]⟩
    ⟨20, [⟨1, "n", some (.jsonFmt false)⟩, ⟨2, "n", some (.jsonFmt false)⟩]⟩
    (by decide) (by decide) rfl rfl

/-! # Claim C9 -/

/-- C9: add_handler raises its configuration error (WryteError) exactly when
the lower-cased severity name is not in the LEVEL_CONVERSION table of
debug, info, warning, warn, error and critical; for a recognized severity
and a formatter kind in the interface (console or json) it returns a name —
the Python name-or-uuid expression — which is the given name whenever a
non-empty one is supplied, and the freshly generated uuid4 string
otherwise. -/
theorem C9_add_handler_config_error :
    ∀ st selfPretty selfColor handler name autoName formatter level,
      (add_handler st selfPretty selfColor handler name autoName formatter level
          = .error .wryteError
        ↔ levelLookup (pyLower level) = none) ∧
      ((formatter = "console" ∨ formatter = "json") →
        ∀ lvl, levelLookup (pyLower level) = some lvl →
        ∃ st', add_handler st selfPretty selfColor handler name autoName formatter level
          = .ok (pyOrStr name autoName, st')) ∧
      pyOrStr none autoName = autoName ∧
      (∀ n₀, n₀ ≠ "" → pyOrStr (some n₀) autoName = n₀) := by
  intro st selfPretty selfColor handler name autoName formatter level
  refine ⟨?_, ?_, rfl, fun n₀ hn₀ => by simp [pyOrStr, hn₀]⟩
  · constructor
    · intro h
      cases hl : levelLookup (pyLower level) with
      | none => rfl
      | some lvl =>
          simp only [add_handler, hl] at h
          by_cases hf : formatter = "console" ∨ formatter = "json"
          · rw [if_pos hf] at h; exact absurd h (by simp)
          · rw [if_neg hf] at h; exact absurd h (by simp)
    · intro hl
      simp [add_handler, hl]
  · intro hf lvl hl
    refine ⟨⟨lvl,
      if st.handlers.any (fun x => x.hid = handler.hid) then st.handlers
      else st.handlers ++ [⟨handler.hid, pyOrStr name autoName,
        some (if formatter = "json" then FmtDesc.jsonFmt (pyOrBool selfPretty false)
          else FmtDesc.consoleFmt (pyOrBool selfPretty true) selfColor)⟩]⟩, ?_⟩
    simp only [add_handler, hl, if_pos hf]

/-- C9, witness: a bogus severity is the configuration error; WARN (case-
insensitively) with a supplied name returns that name. -/
theorem C9_add_handler_config_error_witness :
    (add_handler freshLogger none true ⟨1, "", none⟩ none "u" "json" "bogus"
      = .error .wryteError) ∧
    (∃ st', add_handler freshLogger none true ⟨1, "", none⟩ (some "n") "u" "json" "WARN"
      = .ok ("n", st')) := by
  have hbad := C9_add_handler_config_error freshLogger none true ⟨1, "", none⟩ none "u"
    "json" "bogus"
  have hgood := C9_add_handler_config_error freshLogger none true ⟨1, "", none⟩ (some "n") "u"
    "json" "WARN"
  refine ⟨hbad.1.mpr (by rfl), ?_⟩
  have h := hgood.2.1 (Or.inr rfl) 30 (by rfl)
  rwa [show pyOrStr (some "n") "u" = "n" from rfl] at h

/-! # Claim C1 -/

/-- C1: whenever enrichment returns a record, the record's message is the
given message, its level is the upper-cased severity name and its timestamp
is the clock reading — these three always win — and every other key holds
the value of the last normalized context object that supplies it, falling
back to the identity base: identity fields lowest, context objects in call
order with later keys overwriting earlier ones, then message, level and
timestamp on top.  The claim's two instances (a level-spoofing context
object loses to the real level; among two context objects both setting x,
the later one wins) are the witness below. -/
theorem C1_enrich_precedence :
    ∀ (base : WObj) (message level timestamp : String) (objects : List CtxObj) (rec : WObj),
      enrich base message level timestamp objects = some rec →
      dictGet rec "message" = some (.str message) ∧
      dictGet rec "level" = some (.str (pyUpper level)) ∧
      dictGet rec "timestamp" = some (.str timestamp) ∧
      (∀ k, k ≠ "message" → k ≠ "level" → k ≠ "timestamp" →
        dictGet rec k = optOr (ctxLookup (normalize_objects objects) k) (dictGet base k)) := by
  intro base message level timestamp objects rec h
  simp only [enrich] at h
  cases hf : foldUpdates base (normalize_objects objects) with
  | none => rw [hf] at h; exact absurd h (by simp)
  | some log =>
      rw [hf] at h
      simp only [Option.some.injEq] at h
      subst h
      refine ⟨?_, ?_, ?_, ?_⟩
      · rw [dictGet_dictUpdate]; rfl
      · rw [dictGet_dictUpdate]; rfl
      · rw [dictGet_dictUpdate]; rfl
      · intro k hk1 hk2 hk3
        rw [dictGet_dictUpdate]
        have hne1 : "message" ≠ k := Ne.symm hk1
        have hne2 : "level" ≠ k := Ne.symm hk2
        have hne3 : "timestamp" ≠ k := Ne.symm hk3
        have hlast : lastVal
            (.cons "message" (.str message)
              (.cons "level" (.str (pyUpper level))
                (.cons "timestamp" (.str timestamp) .nil))) k = none := by
          simp [lastVal, hne1, hne2, hne3]
        rw [hlast]
        show dictGet log k = _
        exact dictGet_foldUpdates (normalize_objects objects) base log k hf

/-- C1, witness: the two instances the claim names, read off the general
theorem at concrete inputs — a context object spoofing the level still
yields level INFO, and of two context objects setting x the later wins. -/
theorem C1_enrich_precedence_witness :
    dictGet
      (.cons "name" (.str "svc") (.cons "hostname" (.str "h1") (.cons "pid" (.num 42)
        (.cons "level" (.str "INFO") (.cons "message" (.str "m")
          (.cons "timestamp" (.str "TS") .nil))))))
      "level" = some (.str "INFO") ∧
    dictGet
      (.cons "name" (.str "svc") (.cons "hostname" (.str "h1") (.cons "pid" (.num 42)
        (.cons "x" (.num 2) (.cons "message" (.str "m") (.cons "level" (.str "INFO")
          (.cons "timestamp" (.str "TS") .nil)))))))
      "x" = some (.num 2) := by
  have h1 := C1_enrich_precedence
    (.cons "name" (.str "svc") (.cons "hostname" (.str "h1") (.cons "pid" (.num 42) .nil)))
    "m" "info" "TS" [.dict (.cons "level" (.str "spoofed") .nil)]
    (.cons "name" (.str "svc") (.cons "hostname" (.str "h1") (.cons "pid" (.num 42)
      (.cons "level" (.str "INFO") (.cons "message" (.str "m")
        (.cons "timestamp" (.str "TS") .nil))))))
    rfl
  have h2 := C1_enrich_precedence
    (.cons "name" (.str "svc") (.cons "hostname" (.str "h1") (.cons "pid" (.num 42) .nil)))
    "m" "info" "TS" [.dict (.cons "x" (.num 1) .nil), .dict (.cons "x" (.num 2) .nil)]
    (.cons "name" (.str "svc") (.cons "hostname" (.str "h1") (.cons "pid" (.num 42)
      (.cons "x" (.num 2) (.cons "message" (.str "m") (.cons "level" (.str "INFO")
        (.cons "timestamp" (.str "TS") .nil)))))))
    rfl
  exact ⟨h1.2.1, (h2.2.2.2 "x" (by decide) (by decide) (by decide)).trans rfl⟩

/-! # Lemmas about popping keys -/

theorem hasKey_eq_isSome (d : WObj) (k : String) : d.hasKey k = (dictGet d k).isSome := by
  induction d using WObj.inductObj with
  | h0 => rfl
  | h1 k' v rest ih => by_cases h : k' = k <;> simp [WObj.hasKey, dictGet, h, ih]

theorem dictPop_eq_none_iff (d : WObj) (k : String) :
    dictPop d k = none ↔ dictGet d k = none := by
  induction d using WObj.inductObj with
  | h0 => simp [dictPop, dictGet]
  | h1 k' v rest ih => by_cases h : k' = k <;> simp [dictPop, dictGet, h, ih]

theorem dictGet_of_dictPop (d : WObj) (k : String) (p : WJson × WObj)
    (h : dictPop d k = some p) : dictGet d k = some p.1 := by
  induction d using WObj.inductObj generalizing p with
  | h0 => simp [dictPop] at h
  | h1 k' v rest ih =>
      by_cases hk : k' = k
      · simp only [dictPop, if_pos hk] at h
        cases h
        simp [dictGet, hk]
      · simp only [dictPop, if_neg hk, Option.map_eq_some'] at h
        obtain ⟨q, hq, hpq⟩ := h
        have := ih q hq
        simp [dictGet, hk, this, ← hpq]

theorem dictGet_dictPop_ne (d : WObj) (k : String) (p : WJson × WObj)
    (h : dictPop d k = some p) (k' : String) (hne : k' ≠ k) :
    dictGet p.2 k' = dictGet d k' := by
  induction d using WObj.inductObj generalizing p with
  | h0 => simp [dictPop] at h
  | h1 k0 v rest ih =>
      by_cases hk : k0 = k
      · simp only [dictPop, if_pos hk] at h
        cases h
        have : ¬ k0 = k' := fun e => hne (e ▸ hk)
        simp [dictGet, this]
      · simp only [dictPop, if_neg hk, Option.map_eq_some'] at h
        obtain ⟨q, hq, hpq⟩ := h
        by_cases h0 : k0 = k'
        · simp [← hpq, dictGet, h0]
        · simp [← hpq, dictGet, h0, ih q hq]

theorem dictPop_dictSet_same (d : WObj) (k : String) (v : WJson) :
    dictPop (dictSet d k v) k = some (v, removeKey d k) := by
  induction d using WObj.inductObj with
  | h0 => simp [dictSet, dictPop, removeKey]
  | h1 k' w rest ih =>
      by_cases h : k' = k
      · subst h
        simp [dictSet, dictPop, removeKey]
      · cases hr : dictPop rest k with
        | none => simp [dictSet, dictPop, removeKey, h, ih, hr]
        | some q => simp [dictSet, dictPop, removeKey, h, ih, hr]

theorem dictPop_dictSet_ne (d : WObj) (k : String) (v : WJson) (k' : String)
    (hne : k' ≠ k) :
    dictPop (dictSet d k v) k' = (dictPop d k').map (fun p => (p.1, dictSet p.2 k v)) := by
  have hkk : ¬ k = k' := Ne.symm hne
  induction d using WObj.inductObj with
  | h0 => simp [dictSet, dictPop, hkk]
  | h1 k0 w rest ih =>
      by_cases h0 : k0 = k
      · subst h0
        cases hr : dictPop rest k' with
        | none => simp [dictSet, dictPop, hkk, hr]
        | some q => simp [dictSet, dictPop, hkk, hr]
      · by_cases h1 : k0 = k'
        · subst h1
          simp [dictSet, dictPop, h0]
        · cases hr : dictPop rest k' with
          | none => simp [dictSet, dictPop, h0, h1, hr] at ih ⊢; simp [ih]
          | some q => simp [dictSet, dictPop, h0, h1, hr] at ih ⊢; simp [ih]

/-! # Claim C3 -/

/-- C3, counterexample: the record lacking the name field makes console
rendering fail (the pop of the missing key is a KeyError); no placeholder is
substituted and no string comes back, refuting the claim at this record. -/
theorem C3_counterexample_missing_field :
    ConsoleFormatter.format true false false
      (.cons "hostname" (.str "h1") (.cons "pid" (.num 42)
        (.cons "message" (.str "m") (.cons "level" (.str "INFO")
          (.cons "timestamp" (.str "TS") .nil))))) = none :=
  rfl

/-- C3, amended: console rendering of a record missing any of the six
expected fields (name, timestamp, level, message, hostname, pid) fails with
the KeyError of the first missing pop, whatever the color settings; with
color off, a record carrying all six fields does render to a string. -/
theorem C3_missing_field_fails :
    ∀ (pretty color colorama : Bool) (record : WObj),
      (hasSixFields record = false →
        ConsoleFormatter.format pretty color colorama record = none) ∧
      (hasSixFields record = true →
        ∃ s, ConsoleFormatter.format pretty false colorama record = some s) := by
  intro pretty color colorama record
  constructor
  · intro h6
    simp only [hasSixFields, Bool.and_eq_false_iff] at h6
    simp only [ConsoleFormatter.format]
    cases hp1 : dictPop record "name" with
    | none => rfl
    | some p1 =>
        obtain ⟨v1, r1⟩ := p1
        have hk1 : record.hasKey "name" = true := by
          rw [hasKey_eq_isSome, dictGet_of_dictPop record "name" (v1, r1) hp1]; rfl
        cases hp2 : dictPop r1 "timestamp" with
        | none => simp [hp2]
        | some p2 =>
            obtain ⟨v2, r2⟩ := p2
            have hk2 : record.hasKey "timestamp" = true := by
              rw [hasKey_eq_isSome,
                ← dictGet_dictPop_ne record "name" (v1, r1) hp1 "timestamp" (by decide),
                dictGet_of_dictPop r1 "timestamp" (v2, r2) hp2]
              rfl
            cases hp3 : dictPop r2 "level" with
            | none => simp [hp2, hp3]
            | some p3 =>
                obtain ⟨v3, r3⟩ := p3
                have hk3 : record.hasKey "level" = true := by
                  rw [hasKey_eq_isSome,
                    ← dictGet_dictPop_ne record "name" (v1, r1) hp1 "level" (by decide),
                    ← dictGet_dictPop_ne r1 "timestamp" (v2, r2) hp2 "level" (by decide),
                    dictGet_of_dictPop r2 "level" (v3, r3) hp3]
                  rfl
                cases hp4 : dictPop r3 "message" with
                | none => simp [hp2, hp3, hp4]
                | some p4 =>
                    obtain ⟨v4, r4⟩ := p4
                    have hk4 : record.hasKey "message" = true := by
                      rw [hasKey_eq_isSome,
                        ← dictGet_dictPop_ne record "name" (v1, r1) hp1 "message" (by decide),
                        ← dictGet_dictPop_ne r1 "timestamp" (v2, r2) hp2 "message" (by decide),
                        ← dictGet_dictPop_ne r2 "level" (v3, r3) hp3 "message" (by decide),
                        dictGet_of_dictPop r3 "message" (v4, r4) hp4]
                      rfl
                    cases hp5 : dictPop r4 "hostname" with
                    | none => simp [hp2, hp3, hp4, hp5]
                    | some p5 =>
                        obtain ⟨v5, r5⟩ := p5
                        have hk5 : record.hasKey "hostname" = true := by
                          rw [hasKey_eq_isSome,
                            ← dictGet_dictPop_ne record "name" (v1, r1) hp1 "hostname" (by decide),
                            ← dictGet_dictPop_ne r1 "timestamp" (v2, r2) hp2 "hostname" (by decide),
                            ← dictGet_dictPop_ne r2 "level" (v3, r3) hp3 "hostname" (by decide),
                            ← dictGet_dictPop_ne r3 "message" (v4, r4) hp4 "hostname" (by decide),
                            dictGet_of_dictPop r4 "hostname" (v5, r5) hp5]
                          rfl
                        cases hp6 : dictPop r5 "pid" with
                        | none => simp [hp2, hp3, hp4, hp5, hp6]
                        | some p6 =>
                            have hk6 : record.hasKey "pid" = true := by
                              rw [hasKey_eq_isSome,
                                ← dictGet_dictPop_ne record "name" (v1, r1) hp1 "pid" (by decide),
                                ← dictGet_dictPop_ne r1 "timestamp" (v2, r2) hp2 "pid" (by decide),
                                ← dictGet_dictPop_ne r2 "level" (v3, r3) hp3 "pid" (by decide),
                                ← dictGet_dictPop_ne r3 "message" (v4, r4) hp4 "pid" (by decide),
                                ← dictGet_dictPop_ne r4 "hostname" (v5, r5) hp5 "pid" (by decide),
                                dictGet_of_dictPop r5 "pid" p6 hp6]
                              rfl
                            rcases h6 with ((((h | h) | h) | h) | h) | h <;>
                              simp [h] at hk1 hk2 hk3 hk4 hk5 hk6
  · intro h6
    simp only [hasSixFields, Bool.and_eq_true] at h6
    obtain ⟨⟨⟨⟨⟨hk1, hk2⟩, hk3⟩, hk4⟩, hk5⟩, hk6⟩ := h6
    rw [hasKey_eq_isSome] at hk1 hk2 hk3 hk4 hk5 hk6
    simp only [ConsoleFormatter.format]
    cases hp1 : dictPop record "name" with
    | none => rw [dictPop_eq_none_iff] at hp1; simp [hp1] at hk1
    | some p1 =>
        obtain ⟨v1, r1⟩ := p1
        have e2 := dictGet_dictPop_ne record "name" (v1, r1) hp1 "timestamp" (by decide)
        have e3 := dictGet_dictPop_ne record "name" (v1, r1) hp1 "level" (by decide)
        have e4 := dictGet_dictPop_ne record "name" (v1, r1) hp1 "message" (by decide)
        have e5 := dictGet_dictPop_ne record "name" (v1, r1) hp1 "hostname" (by decide)
        have e6 := dictGet_dictPop_ne record "name" (v1, r1) hp1 "pid" (by decide)
        cases hp2 : dictPop r1 "timestamp" with
        | none => rw [dictPop_eq_none_iff] at hp2; rw [e2] at hp2; simp [hp2] at hk2
        | some p2 =>
            obtain ⟨v2, r2⟩ := p2
            have f3 := dictGet_dictPop_ne r1 "timestamp" (v2, r2) hp2 "level" (by decide)
            have f4 := dictGet_dictPop_ne r1 "timestamp" (v2, r2) hp2 "message" (by decide)
            have f5 := dictGet_dictPop_ne r1 "timestamp" (v2, r2) hp2 "hostname" (by decide)
            have f6 := dictGet_dictPop_ne r1 "timestamp" (v2, r2) hp2 "pid" (by decide)
            cases hp3 : dictPop r2 "level" with
            | none =>
                rw [dictPop_eq_none_iff] at hp3
                rw [f3, e3] at hp3
                simp [hp3] at hk3
            | some p3 =>
                obtain ⟨v3, r3⟩ := p3
                have g4 := dictGet_dictPop_ne r2 "level" (v3, r3) hp3 "message" (by decide)
                have g5 := dictGet_dictPop_ne r2 "level" (v3, r3) hp3 "hostname" (by decide)
                have g6 := dictGet_dictPop_ne r2 "level" (v3, r3) hp3 "pid" (by decide)
                cases hp4 : dictPop r3 "message" with
                | none =>
                    rw [dictPop_eq_none_iff] at hp4
                    rw [g4, f4, e4] at hp4
                    simp [hp4] at hk4
                | some p4 =>
                    obtain ⟨v4, r4⟩ := p4
                    have i5 := dictGet_dictPop_ne r3 "message" (v4, r4) hp4 "hostname" (by decide)
                    have i6 := dictGet_dictPop_ne r3 "message" (v4, r4) hp4 "pid" (by decide)
                    cases hp5 : dictPop r4 "hostname" with
                    | none =>
                        rw [dictPop_eq_none_iff] at hp5
                        rw [i5, g5, f5, e5] at hp5
                        simp [hp5] at hk5
                    | some p5 =>
                        obtain ⟨v5, r5⟩ := p5
                        have j6 := dictGet_dictPop_ne r4 "hostname" (v5, r5) hp5 "pid" (by decide)
                        cases hp6 : dictPop r5 "pid" with
                        | none =>
                            rw [dictPop_eq_none_iff] at hp6
                            rw [j6, i6, g6, f6, e6] at hp6
                            simp [hp6] at hk6
                        | some p6 =>
                            refine ⟨consoleTail pretty (pyStr v2 ++ " - " ++ pyStr v1
                              ++ " - " ++ pyStr v3 ++ " - " ++ pyStr v4) p6.2, ?_⟩
                            obtain ⟨v6, r6⟩ := p6
                            simp [hp2, hp3, hp4, hp5, hp6, formatParts]

/-- C3, witness for the amended theorem: the counterexample record fails,
and the same record with a name added renders. -/
theorem C3_missing_field_fails_witness :
    (ConsoleFormatter.format true true false
      (.cons "hostname" (.str "h1") (.cons "pid" (.num 42)
        (.cons "message" (.str "m") (.cons "level" (.str "INFO")
          (.cons "timestamp" (.str "TS") .nil))))) = none) ∧
    (∃ s, ConsoleFormatter.format true false false
      (.cons "name" (.str "svc") (.cons "hostname" (.str "h1") (.cons "pid" (.num 42)
        (.cons "message" (.str "m") (.cons "level" (.str "INFO")
          (.cons "timestamp" (.str "TS") .nil)))))) = some s) := by
  have hmiss := C3_missing_field_fails true true false
    (.cons "hostname" (.str "h1") (.cons "pid" (.num 42)
      (.cons "message" (.str "m") (.cons "level" (.str "INFO")
        (.cons "timestamp" (.str "TS") .nil)))))
  have hfull := C3_missing_field_fails true false false
    (.cons "name" (.str "svc") (.cons "hostname" (.str "h1") (.cons "pid" (.num 42)
      (.cons "message" (.str "m") (.cons "level" (.str "INFO")
        (.cons "timestamp" (.str "TS") .nil))))))
  exact ⟨hmiss.1 (by decide), hfull.2 (by decide)⟩

/-! # Claim C7 -/

/-- C7: console rendering never shows the hostname or pid values — the
output is unchanged under any replacement of either value (both fields are
popped and dropped), which is how "the values never appear" is stated here;
rendering pretty and uncolored equals the spec-side renderer (head line of
timestamp, name, level, message, then one two-space key=value line per
extra field, the extras being the record without the six expected fields,
in record order); and the claim's concrete scenario renders to exactly
"TS - svc - INFO - started" followed by the env=prod line. -/
theorem C7_console_shape :
    (∀ (pretty color colorama : Bool) (r : WObj) (v v' : WJson),
      ConsoleFormatter.format pretty color colorama (dictSet r "hostname" v)
        = ConsoleFormatter.format pretty color colorama (dictSet r "hostname" v')) ∧
    (∀ (pretty color colorama : Bool) (r : WObj) (v v' : WJson),
      ConsoleFormatter.format pretty color colorama (dictSet r "pid" v)
        = ConsoleFormatter.format pretty color colorama (dictSet r "pid" v')) ∧
    (∀ (colorama : Bool) (r : WObj), hasSixFields r = true →
      ConsoleFormatter.format true false colorama r = specConsoleRender r) ∧
    (enrich
        (.cons "name" (.str "svc") (.cons "hostname" (.str "h1")
          (.cons "pid" (.num 42) .nil)))
        "started" "info" "TS" [.str "env=prod"]
      = some (.cons "name" (.str "svc") (.cons "hostname" (.str "h1")
          (.cons "pid" (.num 42) (.cons "env" (.str "prod")
            (.cons "message" (.str "started") (.cons "level" (.str "INFO")
              (.cons "timestamp" (.str "TS") .nil))))))) ∧
     ConsoleFormatter.format true false false
        (.cons "name" (.str "svc") (.cons "hostname" (.str "h1")
          (.cons "pid" (.num 42) (.cons "env" (.str "prod")
            (.cons "message" (.str "started") (.cons "level" (.str "INFO")
              (.cons "timestamp" (.str "TS") .nil)))))))
      = some "TS - svc - INFO - started\n  env=prod") := by
  refine ⟨?_, ?_, ?_, rfl, rfl⟩
  · intro pretty color colorama r v v'
    simp only [ConsoleFormatter.format]
    rw [dictPop_dictSet_ne r "hostname" v "name" (by decide),
      dictPop_dictSet_ne r "hostname" v' "name" (by decide)]
    cases h1 : dictPop r "name" with
    | none => rfl
    | some p1 =>
        obtain ⟨v1, r1⟩ := p1
        simp only [Option.map_some']
        rw [dictPop_dictSet_ne r1 "hostname" v "timestamp" (by decide),
          dictPop_dictSet_ne r1 "hostname" v' "timestamp" (by decide)]
        cases h2 : dictPop r1 "timestamp" with
        | none => rfl
        | some p2 =>
            obtain ⟨v2, r2⟩ := p2
            simp only [Option.map_some']
            rw [dictPop_dictSet_ne r2 "hostname" v "level" (by decide),
              dictPop_dictSet_ne r2 "hostname" v' "level" (by decide)]
            cases h3 : dictPop r2 "level" with
            | none => rfl
            | some p3 =>
                obtain ⟨v3, r3⟩ := p3
                simp only [Option.map_some']
                rw [dictPop_dictSet_ne r3 "hostname" v "message" (by decide),
                  dictPop_dictSet_ne r3 "hostname" v' "message" (by decide)]
                cases h4 : dictPop r3 "message" with
                | none => rfl
                | some p4 =>
                    obtain ⟨v4, r4⟩ := p4
                    simp only [Option.map_some']
                    rw [dictPop_dictSet_same r4 "hostname" v,
                      dictPop_dictSet_same r4 "hostname" v']
  · intro pretty color colorama r v v'
    simp only [ConsoleFormatter.format]
    rw [dictPop_dictSet_ne r "pid" v "name" (by decide),
      dictPop_dictSet_ne r "pid" v' "name" (by decide)]
    cases h1 : dictPop r "name" with
    | none => rfl
    | some p1 =>
        obtain ⟨v1, r1⟩ := p1
        simp only [Option.map_some']
        rw [dictPop_dictSet_ne r1 "pid" v "timestamp" (by decide),
          dictPop_dictSet_ne r1 "pid" v' "timestamp" (by decide)]
        cases h2 : dictPop r1 "timestamp" with
        | none => rfl
        | some p2 =>
            obtain ⟨v2, r2⟩ := p2
            simp only [Option.map_some']
            rw [dictPop_dictSet_ne r2 "pid" v "level" (by decide),
              dictPop_dictSet_ne r2 "pid" v' "level" (by decide)]
            cases h3 : dictPop r2 "level" with
            | none => rfl
            | some p3 =>
                obtain ⟨v3, r3⟩ := p3
                simp only [Option.map_some']
                rw [dictPop_dictSet_ne r3 "pid" v "message" (by decide),
                  dictPop_dictSet_ne r3 "pid" v' "message" (by decide)]
                cases h4 : dictPop r3 "message" with
                | none => rfl
                | some p4 =>
                    obtain ⟨v4, r4⟩ := p4
                    simp only [Option.map_some']
                    rw [dictPop_dictSet_ne r4 "pid" v "hostname" (by decide),
                      dictPop_dictSet_ne r4 "pid" v' "hostname" (by decide)]
                    cases h5 : dictPop r4 "hostname" with
                    | none => rfl
                    | some p5 =>
                        obtain ⟨v5, r5⟩ := p5
                        simp only [Option.map_some']
                        rw [dictPop_dictSet_same r5 "pid" v,
                          dictPop_dictSet_same r5 "pid" v']
  · intro colorama r h6
    simp only [hasSixFields, Bool.and_eq_true] at h6
    obtain ⟨⟨⟨⟨⟨hk1, hk2⟩, hk3⟩, hk4⟩, hk5⟩, hk6⟩ := h6
    rw [hasKey_eq_isSome] at hk1 hk2 hk3 hk4 hk5 hk6
    simp only [ConsoleFormatter.format]
    cases hp1 : dictPop r "name" with
    | none => rw [dictPop_eq_none_iff] at hp1; simp [hp1] at hk1
    | some p1 =>
        obtain ⟨v1, r1⟩ := p1
        have e2 := dictGet_dictPop_ne r "name" (v1, r1) hp1 "timestamp" (by decide)
        have e3 := dictGet_dictPop_ne r "name" (v1, r1) hp1 "level" (by decide)
        have e4 := dictGet_dictPop_ne r "name" (v1, r1) hp1 "message" (by decide)
        cases hp2 : dictPop r1 "timestamp" with
        | none => rw [dictPop_eq_none_iff] at hp2; rw [e2] at hp2; simp [hp2] at hk2
        | some p2 =>
            obtain ⟨v2, r2⟩ := p2
            have f3 := dictGet_dictPop_ne r1 "timestamp" (v2, r2) hp2 "level" (by decide)
            have f4 := dictGet_dictPop_ne r1 "timestamp" (v2, r2) hp2 "message" (by decide)
            cases hp3 : dictPop r2 "level" with
            | none =>
                rw [dictPop_eq_none_iff] at hp3
                rw [f3, e3] at hp3
                simp [hp3] at hk3
            | some p3 =>
                obtain ⟨v3, r3⟩ := p3
                have g4 := dictGet_dictPop_ne r2 "level" (v3, r3) hp3 "message" (by decide)
                cases hp4 : dictPop r3 "message" with
                | none =>
                    rw [dictPop_eq_none_iff] at hp4
                    rw [g4, f4, e4] at hp4
                    simp [hp4] at hk4
                | some p4 =>
                    obtain ⟨v4, r4⟩ := p4
                    cases hp5 : dictPop r4 "hostname" with
                    | none =>
                        rw [dictPop_eq_none_iff] at hp5
                        rw [dictGet_dictPop_ne r3 "message" (v4, r4) hp4 "hostname" (by decide),
                          dictGet_dictPop_ne r2 "level" (v3, r3) hp3 "hostname" (by decide),
                          dictGet_dictPop_ne r1 "timestamp" (v2, r2) hp2 "hostname" (by decide),
                          dictGet_dictPop_ne r "name" (v1, r1) hp1 "hostname" (by decide)] at hp5
                        simp [hp5] at hk5
                    | some p5 =>
                        obtain ⟨v5, r5⟩ := p5
                        cases hp6 : dictPop r5 "pid" with
                        | none =>
                            rw [dictPop_eq_none_iff] at hp6
                            rw [dictGet_dictPop_ne r4 "hostname" (v5, r5) hp5 "pid" (by decide),
                              dictGet_dictPop_ne r3 "message" (v4, r4) hp4 "pid" (by decide),
                              dictGet_dictPop_ne r2 "level" (v3, r3) hp3 "pid" (by decide),
                              dictGet_dictPop_ne r1 "timestamp" (v2, r2) hp2 "pid" (by decide),
                              dictGet_dictPop_ne r "name" (v1, r1) hp1 "pid" (by decide)] at hp6
                            simp [hp6] at hk6
                        | some p6 =>
                            obtain ⟨v6, r6⟩ := p6
                            have hgts : dictGet r "timestamp" = some v2 := by
                              rw [← e2, dictGet_of_dictPop r1 "timestamp" (v2, r2) hp2]
                            have hgnm : dictGet r "name" = some v1 :=
                              dictGet_of_dictPop r "name" (v1, r1) hp1
                            have hglv : dictGet r "level" = some v3 := by
                              rw [← e3, ← f3, dictGet_of_dictPop r2 "level" (v3, r3) hp3]
                            have hgmsg : dictGet r "message" = some v4 := by
                              rw [← e4, ← f4, ← g4,
                                dictGet_of_dictPop r3 "message" (v4, r4) hp4]
                            have hrem : removeKeys r
                                ["name", "timestamp", "level", "message", "hostname", "pid"]
                                = r6 := by
                              simp only [removeKeys, removeKey, hp1, hp2, hp3, hp4, hp5, hp6]
                            simp only [specConsoleRender, hgts, hgnm, hglv, hgmsg, hrem,
                              hp2, hp3, hp4, hp5, hp6]
                            simp [formatParts, consoleTail, String.append_assoc]

/-- C7, witness: the spec-side renderer agreement read off at the scenario
record. -/
theorem C7_console_shape_witness :
    ConsoleFormatter.format true false false
        (.cons "name" (.str "svc") (.cons "hostname" (.str "h1")
          (.cons "pid" (.num 42) (.cons "env" (.str "prod")
            (.cons "message" (.str "started") (.cons "level" (.str "INFO")
              (.cons "timestamp" (.str "TS") .nil)))))))
      = specConsoleRender
        (.cons "name" (.str "svc") (.cons "hostname" (.str "h1")
          (.cons "pid" (.num 42) (.cons "env" (.str "prod")
            (.cons "message" (.str "started") (.cons "level" (.str "INFO")
              (.cons "timestamp" (.str "TS") .nil))))))) :=
  C7_console_shape.2.2.1 false
    (.cons "name" (.str "svc") (.cons "hostname" (.str "h1")
      (.cons "pid" (.num 42) (.cons "env" (.str "prod")
        (.cons "message" (.str "started") (.cons "level" (.str "INFO")
          (.cons "timestamp" (.str "TS") .nil)))))))
    (by decide)

/-! # Lemmas about the heap of record dicts -/

theorem heapGet_lt (h : Heap) (r : Nat) (d : WObj) (hd : heapGet h r = some d) :
    r < h.cells.length := by
  by_contra hge
  rw [heapGet, List.get?_eq_none.mpr (by omega)] at hd
  exact absurd hd (by simp)

theorem heapGet_heapSet_same (h : Heap) (i : Nat) (d : WObj) (hi : i < h.cells.length) :
    heapGet (heapSet h i d) i = some d := by
  simp [heapGet, heapSet, List.getElem?_set_eq_of_lt _ hi]

theorem heapGet_heapSet_ne (h : Heap) (i j : Nat) (d : WObj) (hij : j ≠ i) :
    heapGet (heapSet h i d) j = heapGet h j := by
  simp [heapGet, heapSet, List.getElem?_set_ne (fun e => hij e.symm)]

theorem heapGet_heapAlloc_fresh (h : Heap) (d : WObj) :
    heapGet (heapAlloc h d).2 (heapAlloc h d).1 = some d := by
  simp [heapGet, heapAlloc, List.getElem?_concat_length]

theorem heapGet_heapAlloc_old (h : Heap) (d : WObj) (j : Nat) (hj : j < h.cells.length) :
    heapGet (heapAlloc h d).2 j = heapGet h j := by
  simp [heapGet, heapAlloc, List.getElem?_append_left hj]

theorem heapPop_spec (h : Heap) (i : Nat) (k : String) (d : WObj)
    (hd : heapGet h i = some d) :
    heapPop h i k = (dictPop d k).map (fun p => (p.1, heapSet h i p.2)) := by
  simp [heapPop, hd]

theorem length_heapSet (h : Heap) (i : Nat) (d : WObj) :
    (heapSet h i d).cells.length = h.cells.length := by
  simp [heapSet]

/-- The console formatter acting on the heap leaves the caller's cell
untouched and outputs exactly what the pure formatter computes from the
cell's dict: all its writes go to the fresh copy. -/
theorem formatRef_frame :
    ∀ (pretty color colorama : Bool) (h : Heap) (ref : Nat) (d : WObj),
      heapGet h ref = some d →
      (ConsoleFormatter.formatRef pretty color colorama h ref).1
        = ConsoleFormatter.format pretty color colorama d ∧
      heapGet (ConsoleFormatter.formatRef pretty color colorama h ref).2 ref = some d := by
  intro pretty color colorama h ref d hd
  have href : ref < h.cells.length := heapGet_lt h ref d hd
  have hrefne : ref ≠ (heapAlloc h d).1 := by simp [heapAlloc]; omega
  have hA : (heapAlloc h d).1 < (heapAlloc h d).2.cells.length := by
    simp [heapAlloc]
  have hold : heapGet (heapAlloc h d).2 ref = some d := by
    rw [heapGet_heapAlloc_old h d ref href]; exact hd
  simp only [ConsoleFormatter.formatRef, ConsoleFormatter.format, hd]
  rw [heapPop_spec (heapAlloc h d).2 (heapAlloc h d).1 "name" d
    (heapGet_heapAlloc_fresh h d)]
  cases hp1 : dictPop d "name" with
  | none => exact ⟨rfl, hold⟩
  | some p1 =>
      obtain ⟨v1, d1⟩ := p1
      simp only [Option.map_some']
      have hs1 : heapGet (heapSet (heapAlloc h d).2 (heapAlloc h d).1 d1)
          (heapAlloc h d).1 = some d1 := heapGet_heapSet_same _ _ _ hA
      have ho1 : heapGet (heapSet (heapAlloc h d).2 (heapAlloc h d).1 d1) ref = some d := by
        rw [heapGet_heapSet_ne _ _ _ _ hrefne]; exact hold
      have hL1 : (heapSet (heapAlloc h d).2 (heapAlloc h d).1 d1).cells.length
          = (heapAlloc h d).2.cells.length := length_heapSet _ _ _
      rw [heapPop_spec _ _ "timestamp" d1 hs1]
      cases hp2 : dictPop d1 "timestamp" with
      | none => exact ⟨rfl, ho1⟩
      | some p2 =>
          obtain ⟨v2, d2⟩ := p2
          simp only [Option.map_some']
          have hs2 : heapGet (heapSet _ (heapAlloc h d).1 d2) (heapAlloc h d).1 = some d2 :=
            heapGet_heapSet_same _ _ _ (by rw [hL1]; exact hA)
          have ho2 : heapGet (heapSet (heapSet (heapAlloc h d).2 (heapAlloc h d).1 d1)
              (heapAlloc h d).1 d2) ref = some d := by
            rw [heapGet_heapSet_ne _ _ _ _ hrefne]; exact ho1
          have hL2 : (heapSet (heapSet (heapAlloc h d).2 (heapAlloc h d).1 d1)
              (heapAlloc h d).1 d2).cells.length = (heapAlloc h d).2.cells.length := by
            rw [length_heapSet, hL1]
          rw [heapPop_spec _ _ "level" d2 hs2]
          cases hp3 : dictPop d2 "level" with
          | none => exact ⟨rfl, ho2⟩
          | some p3 =>
              obtain ⟨v3, d3⟩ := p3
              simp only [Option.map_some']
              have hs3 : heapGet (heapSet _ (heapAlloc h d).1 d3) (heapAlloc h d).1
                  = some d3 := heapGet_heapSet_same _ _ _ (by rw [hL2]; exact hA)
              have ho3 : heapGet (heapSet (heapSet (heapSet (heapAlloc h d).2
                  (heapAlloc h d).1 d1) (heapAlloc h d).1 d2) (heapAlloc h d).1 d3) ref
                  = some d := by
                rw [heapGet_heapSet_ne _ _ _ _ hrefne]; exact ho2
              have hL3 : (heapSet (heapSet (heapSet (heapAlloc h d).2 (heapAlloc h d).1 d1)
                  (heapAlloc h d).1 d2) (heapAlloc h d).1 d3).cells.length
                  = (heapAlloc h d).2.cells.length := by
                rw [length_heapSet, hL2]
              rw [heapPop_spec _ _ "message" d3 hs3]
              cases hp4 : dictPop d3 "message" with
              | none => exact ⟨rfl, ho3⟩
              | some p4 =>
                  obtain ⟨v4, d4⟩ := p4
                  simp only [Option.map_some']
                  have hs4 : heapGet (heapSet _ (heapAlloc h d).1 d4) (heapAlloc h d).1
                      = some d4 := heapGet_heapSet_same _ _ _ (by rw [hL3]; exact hA)
                  have ho4 : heapGet (heapSet (heapSet (heapSet (heapSet (heapAlloc h d).2
                      (heapAlloc h d).1 d1) (heapAlloc h d).1 d2) (heapAlloc h d).1 d3)
                      (heapAlloc h d).1 d4) ref = some d := by
                    rw [heapGet_heapSet_ne _ _ _ _ hrefne]; exact ho3
                  have hL4 : (heapSet (heapSet (heapSet (heapSet (heapAlloc h d).2
                      (heapAlloc h d).1 d1) (heapAlloc h d).1 d2) (heapAlloc h d).1 d3)
                      (heapAlloc h d).1 d4).cells.length
                      = (heapAlloc h d).2.cells.length := by
                    rw [length_heapSet, hL3]
                  rw [heapPop_spec _ _ "hostname" d4 hs4]
                  cases hp5 : dictPop d4 "hostname" with
                  | none => exact ⟨rfl, ho4⟩
                  | some p5 =>
                      obtain ⟨v5, d5⟩ := p5
                      simp only [Option.map_some']
                      have hs5 : heapGet (heapSet _ (heapAlloc h d).1 d5) (heapAlloc h d).1
                          = some d5 := heapGet_heapSet_same _ _ _ (by rw [hL4]; exact hA)
                      have ho5 : heapGet (heapSet (heapSet (heapSet (heapSet (heapSet
                          (heapAlloc h d).2 (heapAlloc h d).1 d1) (heapAlloc h d).1 d2)
                          (heapAlloc h d).1 d3) (heapAlloc h d).1 d4) (heapAlloc h d).1 d5)
                          ref = some d := by
                        rw [heapGet_heapSet_ne _ _ _ _ hrefne]; exact ho4
                      have hL5 : (heapSet (heapSet (heapSet (heapSet (heapSet
                          (heapAlloc h d).2 (heapAlloc h d).1 d1) (heapAlloc h d).1 d2)
                          (heapAlloc h d).1 d3) (heapAlloc h d).1 d4) (heapAlloc h d).1
                          d5).cells.length = (heapAlloc h d).2.cells.length := by
                        rw [length_heapSet, hL4]
                      rw [heapPop_spec _ _ "pid" d5 hs5]
                      cases hp6 : dictPop d5 "pid" with
                      | none => exact ⟨rfl, ho5⟩
                      | some p6 =>
                          obtain ⟨v6, d6⟩ := p6
                          simp only [Option.map_some']
                          have hs6 : heapGet (heapSet _ (heapAlloc h d).1 d6)
                              (heapAlloc h d).1 = some d6 :=
                            heapGet_heapSet_same _ _ _ (by rw [hL5]; exact hA)
                          have ho6 : heapGet (heapSet (heapSet (heapSet (heapSet (heapSet
                              (heapSet (heapAlloc h d).2 (heapAlloc h d).1 d1)
                              (heapAlloc h d).1 d2) (heapAlloc h d).1 d3)
                              (heapAlloc h d).1 d4) (heapAlloc h d).1 d5)
                              (heapAlloc h d).1 d6) ref = some d := by
                            rw [heapGet_heapSet_ne _ _ _ _ hrefne]; exact ho5
                          rw [hs6]
                          exact ⟨rfl, ho6⟩

/-! # Claim C10 -/

/-- C10: ConsoleFormatter.format does not mutate the record it is given —
with the record dicts held in an explicit heap, the method's in-place pops
all land on the freshly allocated copy, so after the call the caller's cell
still holds exactly the same keys and values; the output is exactly the
pure function of that dict, so rendering the same record twice (the second
time on the heap the first call returned) produces the same output. -/
theorem C10_format_no_mutation :
    ∀ (pretty color colorama : Bool) (h : Heap) (ref : Nat) (d : WObj),
      heapGet h ref = some d →
      heapGet (ConsoleFormatter.formatRef pretty color colorama h ref).2 ref = some d ∧
      (ConsoleFormatter.formatRef pretty color colorama h ref).1
        = ConsoleFormatter.format pretty color colorama d ∧
      (ConsoleFormatter.formatRef pretty color colorama
          (ConsoleFormatter.formatRef pretty color colorama h ref).2 ref).1
        = (ConsoleFormatter.formatRef pretty color colorama h ref).1 := by
  intro pretty color colorama h ref d hd
  obtain ⟨hout, hframe⟩ := formatRef_frame pretty color colorama h ref d hd
  obtain ⟨hout2, _⟩ := formatRef_frame pretty color colorama
    (ConsoleFormatter.formatRef pretty color colorama h ref).2 ref d hframe
  exact ⟨hframe, hout, by rw [hout2, hout]⟩

/-- C10, witness: the frame property read off at a one-cell heap holding the
scenario record. -/
theorem C10_format_no_mutation_witness :
    heapGet (ConsoleFormatter.formatRef true false false
        ⟨[.cons "name" (.str "svc") (.cons "hostname" (.str "h1") (.cons "pid" (.num 42)
          (.cons "message" (.str "m") (.cons "level" (.str "INFO")
            (.cons "timestamp" (.str "TS") .nil)))))]⟩ 0).2 0
      = some (.cons "name" (.str "svc") (.cons "hostname" (.str "h1") (.cons "pid" (.num 42)
          (.cons "message" (.str "m") (.cons "level" (.str "INFO")
            (.cons "timestamp" (.str "TS") .nil)))))) :=
  (C10_format_no_mutation true false false
    ⟨[.cons "name" (.str "svc") (.cons "hostname" (.str "h1") (.cons "pid" (.num 42)
      (.cons "message" (.str "m") (.cons "level" (.str "INFO")
        (.cons "timestamp" (.str "TS") .nil)))))]⟩ 0
    (.cons "name" (.str "svc") (.cons "hostname" (.str "h1") (.cons "pid" (.num 42)
      (.cons "message" (.str "m") (.cons "level" (.str "INFO")
        (.cons "timestamp" (.str "TS") .nil))))))
    (by rfl)).1

/-! # Lemmas toward the json round trip: digits and numbers -/

theorem toNat_ofNat_valid (n : Nat) (h : Nat.isValidChar n) : (Char.ofNat n).toNat = n := by
  simp [Char.ofNat, Char.ofNatAux, h, Char.toNat, UInt32.toNat, BitVec.toNat_ofNatLt]

theorem dchar_isDigit (d : Nat) (h : d < 10) : isDigit (digitChar d) = true :=
  (by decide : ∀ d : Fin 10, isDigit (digitChar d.val) = true) ⟨d, h⟩

theorem dchar_sub (d : Nat) (h : d < 10) : (digitChar d).toNat - 48 = d :=
  (by decide : ∀ d : Fin 10, (digitChar d.val).toNat - 48 = d.val) ⟨d, h⟩

theorem dchar_ne_zero (d : Nat) (h : d < 10) (hd : d ≠ 0) : digitChar d ≠ '0' :=
  (by decide : ∀ d : Fin 10, d.val ≠ 0 → digitChar d.val ≠ '0') ⟨d, h⟩ hd

theorem digit_not_special (c : Char) (h : isDigit c = true) :
    c ≠ '-' ∧ c ≠ '.' ∧ c ≠ 'e' ∧ c ≠ 'E' ∧ c ≠ ',' ∧ c ≠ ']' ∧ c ≠ '}' ∧ c ≠ '"' ∧
      c ≠ '{' ∧ c ≠ '[' ∧ c ≠ 'n' ∧ c ≠ 't' ∧ c ≠ 'f' ∧ jsonWs c = false := by
  refine ⟨?_, ?_, ?_, ?_, ?_, ?_, ?_, ?_, ?_, ?_, ?_, ?_, ?_, ?_⟩
  case _ => intro e; rw [e] at h; exact absurd h (by decide)
  case _ => intro e; rw [e] at h; exact absurd h (by decide)
  case _ => intro e; rw [e] at h; exact absurd h (by decide)
  case _ => intro e; rw [e] at h; exact absurd h (by decide)
  case _ => intro e; rw [e] at h; exact absurd h (by decide)
  case _ => intro e; rw [e] at h; exact absurd h (by decide)
  case _ => intro e; rw [e] at h; exact absurd h (by decide)
  case _ => intro e; rw [e] at h; exact absurd h (by decide)
  case _ => intro e; rw [e] at h; exact absurd h (by decide)
  case _ => intro e; rw [e] at h; exact absurd h (by decide)
  case _ => intro e; rw [e] at h; exact absurd h (by decide)
  case _ => intro e; rw [e] at h; exact absurd h (by decide)
  case _ => intro e; rw [e] at h; exact absurd h (by decide)
  case _ =>
    by_cases hs : c = ' '
    · rw [hs] at h; exact absurd h (by decide)
    · by_cases ht : c = '\t'
      · rw [ht] at h; exact absurd h (by decide)
      · by_cases hn : c = '\n'
        · rw [hn] at h; exact absurd h (by decide)
        · by_cases hr : c = '\r'
          · rw [hr] at h; exact absurd h (by decide)
          · simp [jsonWs, hs, ht, hn, hr]

theorem natDigitsF_congr : ∀ (n f1 f2 : Nat), n < f1 → n < f2 →
    natDigitsF f1 n = natDigitsF f2 n := by
  intro n
  induction n using Nat.strong_induction_on with
  | _ n ih =>
      intro f1 f2 h1 h2
      cases f1 with
      | zero => omega
      | succ g1 =>
          cases f2 with
          | zero => omega
          | succ g2 =>
              by_cases hn : n < 10
              · simp [natDigitsF, hn]
              · have hdiv : n / 10 < n := Nat.div_lt_self (by omega) (by omega)
                simp only [natDigitsF, if_neg hn]
                rw [ih (n / 10) hdiv g1 g2 (by omega) (by omega)]

theorem natDigits_unfold (n : Nat) :
    natDigits n = if n < 10 then [digitChar n]
      else natDigits (n / 10) ++ [digitChar (n % 10)] := by
  by_cases hn : n < 10
  · simp [natDigits, natDigitsF, hn]
  · have hdiv : n / 10 < n := Nat.div_lt_self (by omega) (by omega)
    rw [if_neg hn]
    calc natDigits n = natDigitsF (n + 1) n := rfl
      _ = natDigitsF n (n / 10) ++ [digitChar (n % 10)] := by
            simp only [natDigitsF, if_neg hn]
      _ = natDigits (n / 10) ++ [digitChar (n % 10)] := by
            rw [natDigitsF_congr (n / 10) n (n / 10 + 1) (by omega) (by omega)]
            rfl

theorem natDigits_digits : ∀ (n : Nat), ∀ c ∈ natDigits n, isDigit c = true := by
  intro n
  induction n using Nat.strong_induction_on with
  | _ n ih =>
      intro c hc
      rw [natDigits_unfold] at hc
      by_cases hn : n < 10
      · rw [if_pos hn] at hc
        simp only [List.mem_singleton] at hc
        rw [hc]
        exact dchar_isDigit n hn
      · rw [if_neg hn] at hc
        rcases List.mem_append.mp hc with hmem | hmem
        · exact ih (n / 10) (Nat.div_lt_self (by omega) (by omega)) c hmem
        · simp only [List.mem_singleton] at hmem
          rw [hmem]
          exact dchar_isDigit (n % 10) (Nat.mod_lt _ (by omega))

theorem natDigits_head : ∀ (n : Nat), n ≠ 0 →
    ∃ c t, natDigits n = c :: t ∧ isDigit c = true ∧ c ≠ '0' := by
  intro n
  induction n using Nat.strong_induction_on with
  | _ n ih =>
      intro hn0
      rw [natDigits_unfold]
      by_cases hn : n < 10
      · exact ⟨digitChar n, [], by simp [hn], dchar_isDigit n hn, dchar_ne_zero n hn hn0⟩
      · obtain ⟨c, t, hct, hdig, hne⟩ :=
          ih (n / 10) (Nat.div_lt_self (by omega) (by omega)) (by omega)
        exact ⟨c, t ++ [digitChar (n % 10)], by simp [hn, hct], hdig, hne⟩

theorem digitsVal_append_digit (ds : List Char) (c : Char) :
    digitsVal (ds ++ [c]) = digitsVal ds * 10 + (c.toNat - 48) := by
  simp [digitsVal, List.foldl_append]

theorem digitsVal_natDigits : ∀ (n : Nat), digitsVal (natDigits n) = n := by
  intro n
  induction n using Nat.strong_induction_on with
  | _ n ih =>
      rw [natDigits_unfold]
      by_cases hn : n < 10
      · rw [if_pos hn]
        show 0 * 10 + ((digitChar n).toNat - 48) = n
        rw [dchar_sub n hn]
        omega
      · rw [if_neg hn, digitsVal_append_digit,
          ih (n / 10) (Nat.div_lt_self (by omega) (by omega)),
          dchar_sub (n % 10) (Nat.mod_lt _ (by omega))]
        omega

theorem spanDigits_split : ∀ (ds rest : List Char),
    (∀ c ∈ ds, isDigit c = true) →
    (∀ c t, rest = c :: t → isDigit c = false) →
    spanDigits (ds ++ rest) = (ds, rest) := by
  intro ds
  induction ds with
  | nil =>
      intro rest _ hrest
      cases rest with
      | nil => rfl
      | cons c t => simp [spanDigits, hrest c t rfl]
  | cons c ds ih =>
      intro rest hds hrest
      have hc : isDigit c = true := hds c (by simp)
      have := ih rest (fun x hx => hds x (by simp [hx])) hrest
      simp [spanDigits, hc, this]

theorem stopHead_facts (rest : List Char) (h : stopHead rest) :
    ∀ c t, rest = c :: t → isDigit c = false ∧ c ≠ '.' ∧ (c = 'e' || c = 'E') = false := by
  intro c t he
  subst he
  rcases h with h | h | h <;> subst h <;> exact ⟨by decide, by decide, by decide⟩

theorem intPart_natDigits (n : Nat) (rest : List Char) (h : stopHead rest) :
    intPart (natDigits n ++ rest) = some (n, rest) := by
  by_cases hn0 : n = 0
  · subst hn0
    show intPart ('0' :: rest) = some (0, rest)
    simp [intPart]
  · obtain ⟨c, t, hct, hdig, hne0⟩ := natDigits_head n hn0
    rw [hct, List.cons_append]
    have hspan : spanDigits (t ++ rest) = (t, rest) := by
      apply spanDigits_split
      · intro x hx
        exact natDigits_digits n x (by rw [hct]; exact List.mem_cons_of_mem c hx)
      · intro c' t' he
        exact ((stopHead_facts rest h) c' t' he).1
    simp only [intPart, if_neg hne0, hdig, if_pos rfl, hspan]
    rw [show (c :: t) = natDigits n from hct.symm, digitsVal_natDigits]
    simp

theorem scanInt_intRepr (n : Int) (rest : List Char) (h : stopHead rest) :
    scanInt (intRepr n ++ rest) = some (n, rest) := by
  by_cases hn : n < 0
  · have habs : n.natAbs ≠ 0 := by omega
    simp only [intRepr, if_pos hn, List.cons_append]
    simp only [scanInt, if_pos rfl, intPart_natDigits n.natAbs rest h, Option.map_some']
    rw [show -((n.natAbs : Int)) = n by omega]
    simp
  · simp only [intRepr, if_neg hn]
    by_cases hn0 : n.natAbs = 0
    · have hz : n = 0 := by omega
      subst hz
      show scanInt ('0' :: rest) = some (0, rest)
      simp [scanInt, intPart]
    · obtain ⟨c, t, hct, hdig, hne0⟩ := natDigits_head n.natAbs hn0
      rw [hct, List.cons_append]
      have hnm : c ≠ '-' := (digit_not_special c hdig).1
      simp only [scanInt, if_neg hnm, ← List.cons_append, ← hct,
        intPart_natDigits n.natAbs rest h, Option.map_some']
      rw [show ((n.natAbs : Int)) = n by omega]

theorem scanNumber_intRepr (n : Int) (rest : List Char) (h : stopHead rest) :
    scanNumber (intRepr n ++ rest) = some (n, rest) := by
  have hfrac : fracFollows rest = false := by
    cases rest with
    | nil => rfl
    | cons c t =>
        cases t with
        | nil => rfl
        | cons c2 t2 =>
            have := (stopHead_facts (c :: c2 :: t2) h) c (c2 :: t2) rfl
            simp [fracFollows, this.2.1]
  have hexp : expFollows rest = false := by
    cases rest with
    | nil => rfl
    | cons c t =>
        have := (stopHead_facts (c :: t) h) c t rfl
        simp [expFollows, this.2.2]
  simp [scanNumber, scanInt_intRepr n rest h, hfrac, hexp]

/-! # String escape round trip: scanning what the encoder emitted -/

theorem hexVal_hexChar (n : Nat) : hexVal (hexChar n) = some (n % 16) := by
  have key : ∀ d : Fin 16, hexVal (hexChar d.val) = some d.val := by decide
  have h := key ⟨n % 16, Nat.mod_lt _ (by omega)⟩
  have e2 : n % 16 % 16 = n % 16 := by omega
  have e : hexChar (n % 16) = hexChar n := by simp [hexChar, e2]
  rw [← e]
  exact h

theorem hexVal4_hexChars (n : Nat) (h : n < 0x10000) :
    hexVal4 (hexChar (n / 4096)) (hexChar (n / 256)) (hexChar (n / 16)) (hexChar n)
      = some n := by
  simp only [hexVal4, hexVal_hexChar, Option.bind_eq_bind, Option.some_bind]
  congr 1
  omega

theorem scanstring_succ_backslash (fuel : Nat) (rest : List Char) :
    scanstring (fuel + 1) ('\\' :: rest)
      = match unescapeStep rest with
        | none => none
        | some (ch, rest2) => (scanstring fuel rest2).map (fun p => (ch :: p.1, p.2)) := by
  simp [scanstring]

theorem unescapeStep_u (h1 h2 h3 h4 : Char) (rest3 : List Char) :
    unescapeStep ('u' :: h1 :: h2 :: h3 :: h4 :: rest3) = unescapeU h1 h2 h3 h4 rest3 := by
  simp [unescapeStep]

theorem unescapeU_single (n : Nat) (h16 : n < 0x10000)
    (hns1 : ¬ (0xD800 ≤ n ∧ n < 0xDC00)) (hns2 : ¬ (0xDC00 ≤ n ∧ n < 0xE000))
    (rest : List Char) :
    unescapeU (hexChar (n / 4096)) (hexChar (n / 256)) (hexChar (n / 16)) (hexChar n) rest
      = some (Char.ofNat n, rest) := by
  simp only [unescapeU, hexVal4_hexChars n h16]
  rw [if_neg hns1, if_neg hns2]

theorem unescapeU_pair (n m : Nat)
    (hn : 0xD800 ≤ n ∧ n < 0xDC00) (hm : 0xDC00 ≤ m ∧ m < 0xE000) (rest : List Char) :
    unescapeU (hexChar (n / 4096)) (hexChar (n / 256)) (hexChar (n / 16)) (hexChar n)
      ('\\' :: 'u' :: hexChar (m / 4096) :: hexChar (m / 256) :: hexChar (m / 16)
        :: hexChar m :: rest)
      = some (Char.ofNat (0x10000 + (n - 0xD800) * 0x400 + (m - 0xDC00)), rest) := by
  have hn16 : n < 0x10000 := by omega
  have hm16 : m < 0x10000 := by omega
  simp only [unescapeU, hexVal4_hexChars n hn16, hexVal4_hexChars m hm16]
  rw [if_pos hn]
  simp only [and_self, if_true]
  rw [if_pos hm]

theorem scanstring_escAscii (fuel : Nat) (c : Char) (tail : List Char) :
    scanstring (fuel + 1) (escAscii c ++ tail)
      = (scanstring fuel tail).map (fun p => (c :: p.1, p.2)) := by
  by_cases hq : c = '"'
  · subst hq
    simp [escAscii, scanstring, unescapeStep, backslashChar]
  by_cases hb : c = '\\'
  · subst hb
    simp [escAscii, scanstring, unescapeStep, backslashChar]
  by_cases hp : 0x20 ≤ c.toNat ∧ c.toNat ≤ 0x7E
  · have h1 : ¬ c.toNat < 0x20 := by omega
    simp [escAscii, hq, hb, hp, scanstring, h1]
  by_cases h8 : c.toNat = 8
  · have hc : Char.ofNat 8 = c := by rw [← h8, Char.ofNat_toNat]
    subst hc
    simp [escAscii, scanstring, unescapeStep, backslashChar]
  by_cases h12 : c.toNat = 12
  · have hc : Char.ofNat 12 = c := by rw [← h12, Char.ofNat_toNat]
    subst hc
    simp [escAscii, scanstring, unescapeStep, backslashChar]
  by_cases hn : c = '\n'
  · subst hn
    simp [escAscii, scanstring, unescapeStep, backslashChar]
  by_cases hr : c = '\r'
  · subst hr
    simp [escAscii, scanstring, unescapeStep, backslashChar]
  by_cases ht : c = '\t'
  · subst ht
    simp [escAscii, scanstring, unescapeStep, backslashChar]
  have hv := c.valid
  have e : c.val.toNat = c.toNat := rfl
  by_cases hlt : c.toNat < 0x10000
  · have hesc : escAscii c = '\\' :: 'u' :: hex4Chars c.toNat := by
      simp [escAscii, hq, hb, hp, h8, h12, hn, hr, ht, hlt]
    have hns1 : ¬ (0xD800 ≤ c.toNat ∧ c.toNat < 0xDC00) := by
      rcases hv with h | h <;> omega
    have hns2 : ¬ (0xDC00 ≤ c.toNat ∧ c.toNat < 0xE000) := by
      rcases hv with h | h <;> omega
    rw [hesc]
    have hl : ('\\' :: 'u' :: hex4Chars c.toNat) ++ tail
        = '\\' :: 'u' :: hexChar (c.toNat / 4096) :: hexChar (c.toNat / 256)
          :: hexChar (c.toNat / 16) :: hexChar c.toNat :: tail := by
      simp [hex4Chars]
    rw [hl, scanstring_succ_backslash, unescapeStep_u,
      unescapeU_single c.toNat hlt hns1 hns2, Char.ofNat_toNat]
  · have hup : c.toNat < 0x110000 := by rcases hv with h | h <;> omega
    have hesc : escAscii c =
        ('\\' :: 'u' :: hex4Chars (0xD800 + (c.toNat - 0x10000) / 0x400)) ++
          ('\\' :: 'u' :: hex4Chars (0xDC00 + (c.toNat - 0x10000) % 0x400)) := by
      simp [escAscii, hq, hb, hp, h8, h12, hn, hr, ht, hlt]
    rw [hesc]
    have hl : (('\\' :: 'u' :: hex4Chars (0xD800 + (c.toNat - 0x10000) / 0x400)) ++
          ('\\' :: 'u' :: hex4Chars (0xDC00 + (c.toNat - 0x10000) % 0x400))) ++ tail
        = '\\' :: 'u' :: hexChar ((0xD800 + (c.toNat - 0x10000) / 0x400) / 4096)
          :: hexChar ((0xD800 + (c.toNat - 0x10000) / 0x400) / 256)
          :: hexChar ((0xD800 + (c.toNat - 0x10000) / 0x400) / 16)
          :: hexChar (0xD800 + (c.toNat - 0x10000) / 0x400)
          :: '\\' :: 'u' :: hexChar ((0xDC00 + (c.toNat - 0x10000) % 0x400) / 4096)
          :: hexChar ((0xDC00 + (c.toNat - 0x10000) % 0x400) / 256)
          :: hexChar ((0xDC00 + (c.toNat - 0x10000) % 0x400) / 16)
          :: hexChar (0xDC00 + (c.toNat - 0x10000) % 0x400) :: tail := by
      simp [hex4Chars]
    rw [hl, scanstring_succ_backslash, unescapeStep_u,
      unescapeU_pair (0xD800 + (c.toNat - 0x10000) / 0x400)
        (0xDC00 + (c.toNat - 0x10000) % 0x400) ⟨by omega, by omega⟩ ⟨by omega, by omega⟩ tail,
      show 0x10000 + (0xD800 + (c.toNat - 0x10000) / 0x400 - 0xD800) * 0x400 +
        (0xDC00 + (c.toNat - 0x10000) % 0x400 - 0xDC00) = c.toNat by omega, Char.ofNat_toNat]

theorem scanstring_encoded (s : List Char) : ∀ (fuel : Nat), s.length < fuel →
    ∀ (rest : List Char),
    scanstring fuel (s.flatMap escAscii ++ ('"' :: rest)) = some (s, rest) := by
  induction s with
  | nil =>
      intro fuel hf rest
      cases fuel with
      | zero => omega
      | succ f => simp [scanstring]
  | cons c cs ih =>
      intro fuel hf rest
      cases fuel with
      | zero => omega
      | succ f =>
          rw [List.flatMap_cons, List.append_assoc, scanstring_escAscii,
            ih f (by simpa using hf) rest]
          rfl

/-! # The JSON round trip: loads of dumps -/

theorem dictSet_cons_ne (k v : _) (d : WObj) (k2 : String) (v2 : WJson)
    (h : ¬ k = k2) :
    dictSet (.cons k v d) k2 v2 = .cons k v (dictSet d k2 v2) := by
  simp only [dictSet]
  rw [if_neg h]

theorem foldl_dictSet_cons (ps : List (String × WJson)) :
    ∀ (d : WObj) (k : String) (v : WJson), (∀ p ∈ ps, p.1 ≠ k) →
    ps.foldl (fun acc kv => dictSet acc kv.1 kv.2) (.cons k v d)
      = .cons k v (ps.foldl (fun acc kv => dictSet acc kv.1 kv.2) d) := by
  induction ps with
  | nil =>
      intro d k v _
      rfl
  | cons p ps ih =>
      intro d k v h
      simp only [List.foldl_cons]
      rw [dictSet_cons_ne k v d p.1 p.2 (fun he => (h p (by simp)) he.symm)]
      exact ih _ k v (fun q hq => h q (by simp [hq]))

theorem toPairs_key_not (o : WObj) (k : String) (h : o.hasKey k = false) :
    ∀ p ∈ o.toPairs, p.1 ≠ k := by
  induction o using WObj.inductObj with
  | h0 => simp [WObj.toPairs]
  | h1 k2 v rest ih =>
      simp only [WObj.hasKey, Bool.or_eq_false_iff, decide_eq_false_iff_not] at h
      simp only [WObj.toPairs, List.mem_cons]
      rintro p (rfl | hp)
      · exact h.1
      · exact ih h.2 p hp

theorem buildDict_toPairs (o : WObj) (h : wfObj o = true) : buildDict o.toPairs = o := by
  induction o using WObj.inductObj with
  | h0 => rfl
  | h1 k v rest ih =>
      have hw : rest.hasKey k = false ∧ wfObj rest = true := by
        simp only [wfObj, Bool.and_eq_true, Bool.not_eq_true'] at h
        exact ⟨h.1.1, h.2⟩
      show (rest.toPairs).foldl (fun acc kv => dictSet acc kv.1 kv.2) (dictSet .nil k v)
        = .cons k v rest
      rw [show dictSet .nil k v = .cons k v .nil from rfl,
        foldl_dictSet_cons rest.toPairs .nil k v (toPairs_key_not rest k hw.1)]
      exact congrArg (WObj.cons k v) (ih hw.2)

theorem escAscii_length_pos (c : Char) : 1 ≤ (escAscii c).length := by
  unfold escAscii
  split_ifs <;> simp [hex4Chars]

theorem length_le_flatMap_escAscii (s : List Char) :
    s.length ≤ (s.flatMap escAscii).length := by
  induction s with
  | nil => simp
  | cons c cs ih =>
      have := escAscii_length_pos c
      simp only [List.flatMap_cons, List.length_cons, List.length_append]
      omega

theorem skipWs_cons (c : Char) (t : List Char) (h : jsonWs c = false) :
    skipWs (c :: t) = c :: t := by
  simp [skipWs, h]

theorem skipWs_space (t : List Char) : skipWs (' ' :: t) = skipWs t := rfl

theorem intRepr_head (n : Int) :
    ∃ c t, intRepr n = c :: t ∧ (c = '-' ∨ isDigit c = true) := by
  by_cases hn : n < 0
  · exact ⟨'-', natDigits n.natAbs, by simp [intRepr, hn], Or.inl rfl⟩
  · by_cases h0 : n.natAbs = 0
    · refine ⟨'0', [], ?_, Or.inr (by decide)⟩
      simp [intRepr, hn, h0]
      rfl
    · obtain ⟨c, t, hct, hdig, _⟩ := natDigits_head n.natAbs h0
      exact ⟨c, t, by simp [intRepr, hn, hct], Or.inr hdig⟩

theorem dumpsVal_head (v : WJson) :
    ∃ c t, dumpsVal v = c :: t ∧ jsonWs c = false ∧ c ≠ ']' ∧ c ≠ '}' := by
  cases v with
  | num n =>
      obtain ⟨c, t, hct, hc⟩ := intRepr_head n
      refine ⟨c, t, by simp [dumpsVal, hct], ?_, ?_, ?_⟩
      · rcases hc with rfl | hd
        · decide
        · exact (digit_not_special c hd).2.2.2.2.2.2.2.2.2.2.2.2.2
      · rcases hc with rfl | hd
        · decide
        · exact (digit_not_special c hd).2.2.2.2.2.1
      · rcases hc with rfl | hd
        · decide
        · exact (digit_not_special c hd).2.2.2.2.2.2.1
  | null => exact ⟨'n', _, rfl, by decide⟩
  | bool b =>
      cases b with
      | false => exact ⟨'f', _, rfl, by decide⟩
      | true => exact ⟨'t', _, rfl, by decide⟩
  | str s => exact ⟨'"', _, rfl, by decide⟩
  | arr a => cases a with
    | nil => exact ⟨'[', _, rfl, by decide⟩
    | cons w ws => exact ⟨'[', _, rfl, by decide⟩
  | obj o => cases o with
    | nil => exact ⟨'{', _, rfl, by decide⟩
    | cons k w kvs => exact ⟨'{', _, rfl, by decide⟩

theorem arrTail_stopHead (vs : WArr) (rest : List Char) :
    stopHead (dumpsArrTail vs ++ (']' :: rest)) := by
  cases vs with
  | nil => simp [dumpsArrTail, stopHead]
  | cons w ws => simp [dumpsArrTail, stopHead]

theorem objTail_stopHead (kvs : WObj) (rest : List Char) :
    stopHead (dumpsObjTail kvs ++ ('}' :: rest)) := by
  cases kvs with
  | nil => simp [dumpsObjTail, stopHead]
  | cons k w ws => simp [dumpsObjTail, stopHead]

theorem scanOnce_succ_quote (f : Nat) (rest : List Char) :
    scanOnce (f + 1) ('"' :: rest)
      = (scanstring f rest).map (fun p => (.str (String.mk p.1), p.2)) := by
  simp [scanOnce]

theorem scanOnce_succ_lbrack (f : Nat) (rest : List Char) :
    scanOnce (f + 1) ('[' :: rest)
      = match skipWs rest with
        | ']' :: rest2 => some (.arr .nil, rest2)
        | s1 => (scanItems f s1).map (fun p => (.arr p.1, p.2)) := by
  simp [scanOnce]

theorem scanOnce_succ_lbrace (f : Nat) (rest : List Char) :
    scanOnce (f + 1) ('{' :: rest)
      = match skipWs rest with
        | '}' :: rest2 => some (.obj .nil, rest2)
        | s1 => (scanMembers f s1).map (fun p => (.obj (buildDict p.1), p.2)) := by
  simp [scanOnce]

theorem scanOnce_succ_num (f : Nat) (c : Char) (rest : List Char)
    (h1 : ¬ c = '"') (h2 : ¬ c = '{') (h3 : ¬ c = '[') (h4 : ¬ c = 'n')
    (h5 : ¬ c = 't') (h6 : ¬ c = 'f') :
    scanOnce (f + 1) (c :: rest)
      = (scanNumber (c :: rest)).map (fun p => (.num p.1, p.2)) := by
  simp [scanOnce, h1, h2, h3, h4, h5, h6]

theorem scanItems_succ (f : Nat) (s : List Char) :
    scanItems (f + 1) s
      = match scanOnce f s with
        | none => none
        | some (v, rest) =>
            match skipWs rest with
            | ']' :: rest2 => some (.cons v .nil, rest2)
            | ',' :: rest2 => (scanItems f (skipWs rest2)).map (fun p => (.cons v p.1, p.2))
            | _ => none := by
  simp [scanItems]

theorem scanMembers_succ_quote (f : Nat) (rest : List Char) :
    scanMembers (f + 1) ('"' :: rest)
      = match scanstring f rest with
        | none => none
        | some (k, rest1) =>
            match skipWs rest1 with
            | ':' :: rest2 =>
                match scanOnce f (skipWs rest2) with
                | none => none
                | some (v, rest3) =>
                    match skipWs rest3 with
                    | '}' :: rest4 => some ([(String.mk k, v)], rest4)
                    | ',' :: rest4 =>
                        (scanMembers f (skipWs rest4)).map (fun p =>
                          ((String.mk k, v) :: p.1, p.2))
                    | _ => none
            | _ => none := by
  simp [scanMembers]

theorem skipWs_dumpsVal (v : WJson) (X : List Char) :
    skipWs (dumpsVal v ++ X) = dumpsVal v ++ X := by
  obtain ⟨c, t, hct, hws, _, _⟩ := dumpsVal_head v
  rw [hct, List.cons_append, skipWs_cons c _ hws]

theorem skipWs_encodeString (k : List Char) (X : List Char) :
    skipWs (encodeString k ++ X) = encodeString k ++ X := by
  rw [show encodeString k ++ X = '"' :: ((k.flatMap escAscii ++ ['"']) ++ X) by
    simp [encodeString], skipWs_cons '"' _ (by decide)]

theorem rt_all : ∀ (fuel : Nat),
    (∀ (v : WJson) (rest : List Char), wfVal v = true → (dumpsVal v).length < fuel →
      stopHead rest → scanOnce fuel (dumpsVal v ++ rest) = some (v, rest)) ∧
    (∀ (v : WJson) (vs : WArr) (rest : List Char), wfVal v = true → wfArr vs = true →
      (dumpsVal v).length + (dumpsArrTail vs).length + 1 < fuel → stopHead rest →
      scanItems fuel (dumpsVal v ++ (dumpsArrTail vs ++ (']' :: rest)))
        = some (.cons v vs, rest)) ∧
    (∀ (k : String) (v : WJson) (kvs : WObj) (rest : List Char), wfVal v = true →
      wfObj kvs = true →
      (encodeString k.data).length + (dumpsVal v).length + (dumpsObjTail kvs).length + 1 < fuel →
      stopHead rest →
      scanMembers fuel (encodeString k.data
          ++ (':' :: ' ' :: (dumpsVal v ++ (dumpsObjTail kvs ++ ('}' :: rest)))))
        = some ((k, v) :: kvs.toPairs, rest)) := by
  intro fuel
  induction fuel with
  | zero =>
      refine ⟨?_, ?_, ?_⟩
      · intro v rest _ h _
        omega
      · intro v vs rest _ _ h _
        omega
      · intro k v kvs rest _ _ h _
        omega
  | succ f ih =>
      obtain ⟨ihA, ihB, ihC⟩ := ih
      refine ⟨?_, ?_, ?_⟩
      · intro v rest hwf hlen hstop
        cases v with
        | null => simp [dumpsVal, scanOnce]
        | bool b => cases b <;> simp [dumpsVal, scanOnce]
        | num n =>
            obtain ⟨c, t, hct, hc⟩ := intRepr_head n
            have hd1 : ¬ c = '"' := by
              rcases hc with rfl | hd
              · decide
              · exact (digit_not_special c hd).2.2.2.2.2.2.2.1
            have hd2 : ¬ c = '{' := by
              rcases hc with rfl | hd
              · decide
              · exact (digit_not_special c hd).2.2.2.2.2.2.2.2.1
            have hd3 : ¬ c = '[' := by
              rcases hc with rfl | hd
              · decide
              · exact (digit_not_special c hd).2.2.2.2.2.2.2.2.2.1
            have hd4 : ¬ c = 'n' := by
              rcases hc with rfl | hd
              · decide
              · exact (digit_not_special c hd).2.2.2.2.2.2.2.2.2.2.1
            have hd5 : ¬ c = 't' := by
              rcases hc with rfl | hd
              · decide
              · exact (digit_not_special c hd).2.2.2.2.2.2.2.2.2.2.2.1
            have hd6 : ¬ c = 'f' := by
              rcases hc with rfl | hd
              · decide
              · exact (digit_not_special c hd).2.2.2.2.2.2.2.2.2.2.2.2.1
            show scanOnce (f + 1) (intRepr n ++ rest) = some (.num n, rest)
            rw [hct, List.cons_append,
              scanOnce_succ_num f c (t ++ rest) hd1 hd2 hd3 hd4 hd5 hd6,
              ← List.cons_append, ← hct, scanNumber_intRepr n rest hstop]
            rfl
        | str s =>
            have h1 := length_le_flatMap_escAscii s.data
            have he : (dumpsVal (.str s)).length = (s.data.flatMap escAscii).length + 2 := by
              simp [dumpsVal, encodeString]
            have hlen2 : s.data.length < f := by omega
            show scanOnce (f + 1) (encodeString s.data ++ rest) = some (.str s, rest)
            rw [show encodeString s.data ++ rest
                = '"' :: (s.data.flatMap escAscii ++ ('"' :: rest)) by simp [encodeString],
              scanOnce_succ_quote, scanstring_encoded s.data f hlen2 rest]
            rfl
        | arr a =>
            cases a with
            | nil => simp [dumpsVal, scanOnce, skipWs, jsonWs]
            | cons w ws =>
                have hwf2 : wfVal w = true ∧ wfArr ws = true := by
                  simpa [wfVal, wfArr, Bool.and_eq_true] using hwf
                have he : (dumpsVal (.arr (.cons w ws))).length
                    = (dumpsVal w).length + (dumpsArrTail ws).length + 2 := by
                  simp only [dumpsVal, List.length_cons, List.length_append, List.length_nil]
                  omega
                have hlen2 : (dumpsVal w).length + (dumpsArrTail ws).length + 1 < f := by
                  omega
                obtain ⟨c, t, hct, hws, hne1, hne2⟩ := dumpsVal_head w
                show scanOnce (f + 1)
                    (('[' :: (dumpsVal w ++ (dumpsArrTail ws ++ [']']))) ++ rest)
                  = some (.arr (.cons w ws), rest)
                rw [List.cons_append, scanOnce_succ_lbrack,
                  show (dumpsVal w ++ (dumpsArrTail ws ++ [']'])) ++ rest
                    = dumpsVal w ++ (dumpsArrTail ws ++ (']' :: rest)) by simp,
                  skipWs_dumpsVal w _, hct, List.cons_append]
                split
                · next rest2 heq =>
                    injection heq with hh _
                    exact absurd hh hne1
                · rw [← List.cons_append, ← hct,
                    ihB w ws rest hwf2.1 hwf2.2 hlen2 hstop]
                  rfl
        | obj o =>
            cases o with
            | nil => simp [dumpsVal, scanOnce, skipWs, jsonWs]
            | cons k w kvs =>
                have hwfo : wfObj (.cons k w kvs) = true := hwf
                have hwf2 : wfVal w = true ∧ wfObj kvs = true := by
                  simp only [wfObj, Bool.and_eq_true] at hwfo
                  exact ⟨hwfo.1.2, hwfo.2⟩
                have he : (dumpsVal (.obj (.cons k w kvs))).length
                    = (encodeString k.data).length + (dumpsVal w).length
                      + (dumpsObjTail kvs).length + 4 := by
                  simp [dumpsVal]
                  omega
                have hlen2 : (encodeString k.data).length + (dumpsVal w).length
                    + (dumpsObjTail kvs).length + 1 < f := by omega
                show scanOnce (f + 1)
                    (('{' :: (encodeString k.data ++ (':' :: ' ' :: (dumpsVal w
                      ++ (dumpsObjTail kvs ++ ['}']))))) ++ rest)
                  = some (.obj (.cons k w kvs), rest)
                rw [List.cons_append, scanOnce_succ_lbrace,
                  show (encodeString k.data ++ (':' :: ' ' :: (dumpsVal w
                      ++ (dumpsObjTail kvs ++ ['}'])))) ++ rest
                    = encodeString k.data ++ (':' :: ' ' :: (dumpsVal w
                      ++ (dumpsObjTail kvs ++ ('}' :: rest)))) by simp,
                  skipWs_encodeString k.data _,
                  show encodeString k.data ++ (':' :: ' ' :: (dumpsVal w
                      ++ (dumpsObjTail kvs ++ ('}' :: rest))))
                    = '"' :: ((k.data.flatMap escAscii ++ ['"']) ++ (':' :: ' ' :: (dumpsVal w
                      ++ (dumpsObjTail kvs ++ ('}' :: rest))))) by simp [encodeString]]
                split
                · next rest2 heq =>
                    injection heq with hh _
                    exact absurd hh (by decide)
                · rw [show ('"' : Char) :: ((k.data.flatMap escAscii ++ ['"'])
                      ++ (':' :: ' ' :: (dumpsVal w ++ (dumpsObjTail kvs ++ ('}' :: rest)))))
                      = encodeString k.data ++ (':' :: ' ' :: (dumpsVal w
                        ++ (dumpsObjTail kvs ++ ('}' :: rest)))) by simp [encodeString],
                    ihC k w kvs rest hwf2.1 hwf2.2 hlen2 hstop]
                  simp only [Option.map_some']
                  rw [show ((k, w) :: kvs.toPairs) = (WObj.cons k w kvs).toPairs from rfl,
                    buildDict_toPairs _ hwfo]
      · intro v vs rest hwv hwvs hlen hstop
        have hA := ihA v (dumpsArrTail vs ++ (']' :: rest)) hwv (by omega)
          (arrTail_stopHead vs rest)
        rw [scanItems_succ, hA]
        cases vs with
        | nil => simp [dumpsArrTail, skipWs, jsonWs]
        | cons w ws =>
            have hwf2 : wfVal w = true ∧ wfArr ws = true := by
              simpa [wfArr, Bool.and_eq_true] using hwvs
            have he : (dumpsArrTail (.cons w ws)).length
                = (dumpsVal w).length + (dumpsArrTail ws).length + 2 := by
              simp [dumpsArrTail]
            have hlen2 : (dumpsVal w).length + (dumpsArrTail ws).length + 1 < f := by omega
            have hB := ihB w ws rest hwf2.1 hwf2.2 hlen2 hstop
            simp [dumpsArrTail, skipWs, jsonWs, skipWs_dumpsVal, List.append_assoc, hB]
      · intro k v kvs rest hwv hwkvs hlen hstop
        have h1 := length_le_flatMap_escAscii k.data
        have he : (encodeString k.data).length = (k.data.flatMap escAscii).length + 2 := by
          simp [encodeString]
        have hkd : k.data.length < f := by omega
        have hA := ihA v (dumpsObjTail kvs ++ ('}' :: rest)) hwv (by omega)
          (objTail_stopHead kvs rest)
        rw [show encodeString k.data ++ (':' :: ' ' :: (dumpsVal v
            ++ (dumpsObjTail kvs ++ ('}' :: rest))))
            = '"' :: (k.data.flatMap escAscii ++ ('"' :: (':' :: ' ' :: (dumpsVal v
              ++ (dumpsObjTail kvs ++ ('}' :: rest)))))) by simp [encodeString],
          scanMembers_succ_quote, scanstring_encoded k.data f hkd]
        cases kvs with
        | nil =>
            simp only [dumpsObjTail, List.nil_append] at hA
            simp [dumpsObjTail, skipWs, jsonWs, skipWs_dumpsVal, hA, WObj.toPairs]
        | cons k2 v2 kvs2 =>
            have hwf3 : wfVal v2 = true ∧ wfObj kvs2 = true := by
              simp only [wfObj, Bool.and_eq_true] at hwkvs
              exact ⟨hwkvs.1.2, hwkvs.2⟩
            have he2 : (dumpsObjTail (.cons k2 v2 kvs2)).length
                = (encodeString k2.data).length + (dumpsVal v2).length
                  + (dumpsObjTail kvs2).length + 4 := by
              simp [dumpsObjTail]
              omega
            have hlen3 : (encodeString k2.data).length + (dumpsVal v2).length
                + (dumpsObjTail kvs2).length + 1 < f := by omega
            have hC2 := ihC k2 v2 kvs2 rest hwf3.1 hwf3.2 hlen3 hstop
            simp only [encodeString, List.cons_append, List.append_assoc,
              List.singleton_append, List.nil_append] at hC2
            simp only [dumpsObjTail, List.cons_append, List.append_assoc] at hA
            simp [dumpsObjTail, skipWs, jsonWs, skipWs_dumpsVal, skipWs_encodeString,
              List.append_assoc, hA, hC2, WObj.toPairs]

theorem loads_dumps (v : WJson) (h : wfVal v = true) : loads (dumps v) = some v := by
  have hskip : skipWs (dumpsVal v) = dumpsVal v := by
    have h2 := skipWs_dumpsVal v []
    simpa using h2
  show loads (String.mk (dumpsVal v)) = some v
  simp only [loads]
  rw [hskip]
  have hA := (rt_all ((dumpsVal v).length + 1)).1 v [] h (by omega) trivial
  rw [show dumpsVal v ++ ([] : List Char) = dumpsVal v by simp] at hA
  rw [hA]
  simp [skipWs]

/-- C8: decoding the compact (non-pretty) JSON rendering of a serializable
record yields a mapping equal to the record. -/
theorem C8_json_round_trip (r : WObj) (h : wfObj r = true) :
    loads (JsonFormatter.format false (.obj r)) = some (.obj r) :=
  loads_dumps (.obj r) h

theorem C8_json_round_trip_witness :
    wfObj (.cons "name" (.str "svc") (.cons "pid" (.num 42)
      (.cons "message" (.str "a \"b\\c\n😀") .nil))) = true ∧
    loads (JsonFormatter.format false (.obj (.cons "name" (.str "svc") (.cons "pid" (.num 42)
      (.cons "message" (.str "a \"b\\c\n😀") .nil)))))
      = some (.obj (.cons "name" (.str "svc") (.cons "pid" (.num 42)
        (.cons "message" (.str "a \"b\\c\n😀") .nil)))) :=
  ⟨by decide, C8_json_round_trip _ (by decide)⟩

end WryteSpec
